import Mathlib

/-!
Verification of the `networkmgmt` discovery pipeline (shallow embedding).

The definitions below are translated from the Python sources of the
repository, mainly:
  * `networkmgmt/discovery/models.py`   (data model)
  * `networkmgmt/discovery/_util.py`    (`_validate_interface_name`)
  * `networkmgmt/discovery/scanner.py`  (`_cleanup_trace`,
    `build_topology_tree`, `identify_hosts`, the per-subnet merge part of
    `run_discovery`)
  * `networkmgmt/discovery/snmp.py`     (`SnmpBridgeDiscovery.build_l2_topology`)
  * `networkmgmt/discovery/lldp.py`     (`LldpDiscovery.build_l2_from_lldp`)

Modelling conventions:
  * Python strings are Lean `String`s; Python `int` hop numbers are `Nat`
    (they are parsed from unsigned decimal digits).
  * Python `float` RTT values are carried opaquely as `Rat`; no theorem
    depends on them and the modelled code never computes with them.
  * A Python `dict[str, V]` is represented by the history of its
    assignments, a `List (String × V)`; a lookup returns the value of the
    last assignment of the key (`dget`).  `d[k] = v` is `d ++ [(k, v)]`,
    `d.update(d2)` is `d ++ d2`, and iteration over `d.items()` is
    `ditems d` (first-assignment key order, last-assigned values), which
    matches the insertion-order semantics of Python dicts.
  * A Python `set` is a `List` used only through membership.
  * Side-effecting enrichment steps (reverse DNS, OUI vendor lookup, nmap,
    categorization) are passed in as oracle functions; the claims under
    study never constrain their outputs.
-/

namespace NetworkMgmt

/-- Dict lookup: value of the last assignment of key `k` (Python `d[k]` /
`d.get(k)`). -/
def dget {α : Type} (d : List (String × α)) (k : String) : Option α :=
  (d.reverse.find? (fun p => p.1 == k)).map (·.2)

/-- Python `k in d`. -/
def dhas {α : Type} (d : List (String × α)) (k : String) : Bool :=
  (dget d k).isSome

/-- First-occurrence deduplication of a key list: the iteration order of the
keys of a Python dict built by successive assignments. -/
def firstDedup : List String → List String
  | [] => []
  | k :: ks => k :: (firstDedup ks).filter (fun k2 => k2 ≠ k)

/-- Iteration over a Python dict built by the assignment history `d`
(`d.items()`): keys in first-assignment order, each with its last-assigned
value. -/
def ditems {α : Type} (d : List (String × α)) : List (String × α) :=
  (firstDedup (d.map Prod.fst)).filterMap (fun k => (dget d k).map (fun v => (k, v)))

/-- models.py: `SwitchPortMapping`. -/
structure SwitchPortMapping where
  switch_ip : String
  switch_name : String := ""
  port_index : Nat
  port_name : String := ""
deriving DecidableEq, Repr

/-- models.py: `DiscoveredHost`. -/
structure DiscoveredHost where
  ip : String
  mac : String := ""
  hostname : String := ""
  vendor : String := ""
  services : List String := []
  is_gateway : Bool := false
  is_infrastructure : Bool := false
  category : String := ""
deriving DecidableEq, Repr

/-- models.py: `L2TopologyEntry`. -/
structure L2TopologyEntry where
  host_ip : String
  host_mac : String
  switch : SwitchPortMapping
  source : String := ""
deriving DecidableEq, Repr

/-- models.py: `TracerouteHop`.  `rtt_ms` is a Python float carried
opaquely (never computed with). -/
structure TracerouteHop where
  hop_number : Nat
  ip : String := ""
  hostname : String := ""
  rtt_ms : Rat := 0
  is_timeout : Bool := false
deriving DecidableEq, Repr

/-- models.py: `TraceroutePath`. -/
structure TraceroutePath where
  target : String
  hops : List TracerouteHop := []
  completed : Bool := false
deriving DecidableEq, Repr

/-! ### `NetworkTopologyScanner._cleanup_trace` (scanner.py lines 417-450) -/

/-- The predicate selecting "real" hops: `not h.is_timeout and h.ip`
(scanner.py line 423). -/
def isRealHop (h : TracerouteHop) : Bool :=
  !h.is_timeout && h.ip ≠ ""

/-- The synthetic `UNREACHABLE` hop constructed by `_cleanup_trace`. -/
def unreachableHop (n : Nat) (target : String) : TracerouteHop :=
  { hop_number := n, ip := target, hostname := "UNREACHABLE", is_timeout := true }

/-- scanner.py `_cleanup_trace`: collapse incomplete traces — keep real
hops, replace trailing timeouts with one `UNREACHABLE` marker. -/
def cleanup_trace (path : TraceroutePath) : TraceroutePath :=
  if path.completed then path
  else
    match path.hops.filter isRealHop with
    | [] => { path with hops := [unreachableHop 1 path.target] }
    | r :: rs =>
      -- `real_hops[-1].hop_number` for the nonempty list `r :: rs`
      let last_real : Nat := (rs.getLastD r).hop_number
      let had_trailing_timeouts : Bool :=
        path.hops.any (fun h => h.is_timeout && last_real < h.hop_number)
      if had_trailing_timeouts then
        { path with hops := (r :: rs) ++ [unreachableHop (last_real + 1) path.target] }
      else
        { path with hops := r :: rs }

example :
    cleanup_trace { target := "10.0.0.9", hops := [{ hop_number := 1, is_timeout := true }] }
      = { target := "10.0.0.9", hops := [unreachableHop 1 "10.0.0.9"] } := by
  decide

example :
    cleanup_trace { target := "10.0.0.9",
                    hops := [{ hop_number := 1, ip := "10.0.0.1" },
                             { hop_number := 2, is_timeout := true }] }
      = { target := "10.0.0.9",
          hops := [{ hop_number := 1, ip := "10.0.0.1" }, unreachableHop 2 "10.0.0.9"] } := by
  decide

example :
    cleanup_trace { target := "10.0.0.9", hops := [{ hop_number := 1, ip := "10.0.0.1" }] }
      = { target := "10.0.0.9", hops := [{ hop_number := 1, ip := "10.0.0.1" }] } := by
  decide

/-- Unfolding lemma: a completed path is returned unchanged. -/
theorem cleanup_trace_of_completed (p : TraceroutePath) (h : p.completed = true) :
    cleanup_trace p = p := by
  unfold cleanup_trace
  simp [h]

/-- Unfolding lemma: a non-completed path with no real hop collapses to the
single synthetic `UNREACHABLE` hop. -/
theorem cleanup_trace_of_no_real (p : TraceroutePath) (hc : p.completed = false)
    (h : p.hops.filter isRealHop = []) :
    cleanup_trace p = { p with hops := [unreachableHop 1 p.target] } := by
  unfold cleanup_trace
  rw [hc, h]
  rfl

/-- Unfolding lemma: a non-completed path whose real hops are `r :: rs` keeps
exactly those, with a trailing `UNREACHABLE` marker iff a timeout hop with a
larger hop number than the last real hop exists. -/
theorem cleanup_trace_of_real (p : TraceroutePath) (r : TracerouteHop)
    (rs : List TracerouteHop) (hc : p.completed = false)
    (h : p.hops.filter isRealHop = r :: rs) :
    cleanup_trace p =
      if p.hops.any (fun x => x.is_timeout && (rs.getLastD r).hop_number < x.hop_number) then
        { p with hops :=
            (r :: rs) ++ [unreachableHop ((rs.getLastD r).hop_number + 1) p.target] }
      else
        { p with hops := r :: rs } := by
  unfold cleanup_trace
  rw [hc, h]
  rfl

/-- Claim C6: `_cleanup_trace` applied to any non-completed path with zero real
(non-timeout, non-empty-IP) hops yields a path with exactly one hop, whose ip
equals the path's target, hostname equals "UNREACHABLE", and is_timeout is
true; applied to any path with completed=true it is the identity function. -/
theorem claim_c6_cleanup_trace_collapse_and_identity
    (p q : TraceroutePath) (hpc : p.completed = false)
    (hpr : p.hops.filter isRealHop = []) (hqc : q.completed = true) :
    ((cleanup_trace p).hops.length = 1 ∧
      ∀ h ∈ (cleanup_trace p).hops,
        h.ip = p.target ∧ h.hostname = "UNREACHABLE" ∧ h.is_timeout = true) ∧
    cleanup_trace q = q := by
  refine ⟨?_, cleanup_trace_of_completed q hqc⟩
  rw [cleanup_trace_of_no_real p hpc hpr]
  refine ⟨rfl, ?_⟩
  intro h hm
  simp only [List.mem_singleton] at hm
  subst hm
  exact ⟨rfl, rfl, rfl⟩

/-- Witness for C6 at a concrete all-timeout path and a concrete completed
path. -/
theorem claim_c6_witness :
    (((cleanup_trace
        { target := "10.0.0.9",
          hops := [{ hop_number := 1, is_timeout := true }] }).hops.length = 1 ∧
      ∀ h ∈ (cleanup_trace
        { target := "10.0.0.9",
          hops := [{ hop_number := 1, is_timeout := true }] }).hops,
        h.ip = "10.0.0.9" ∧ h.hostname = "UNREACHABLE" ∧ h.is_timeout = true) ∧
    cleanup_trace { target := "10.0.0.8", hops := [], completed := true }
      = { target := "10.0.0.8", hops := [], completed := true }) :=
  claim_c6_cleanup_trace_collapse_and_identity
    { target := "10.0.0.9", hops := [{ hop_number := 1, is_timeout := true }] }
    { target := "10.0.0.8", hops := [], completed := true }
    rfl (by decide) rfl

/-- Claim C7 counterexample: a non-completed path with one real hop and no
trailing timeout hops is returned with exactly its real hops and NO synthetic
trailing "UNREACHABLE" hop, contradicting the claim that a trailing
"UNREACHABLE" hop is always appended for non-completed paths with at least one
real hop. -/
theorem claim_c7_counterexample :
    (cleanup_trace { target := "10.0.0.9",
                     hops := [{ hop_number := 1, ip := "10.0.0.1" }],
                     completed := false }).hops
        = [{ hop_number := 1, ip := "10.0.0.1" }] ∧
    ∀ h ∈ (cleanup_trace { target := "10.0.0.9",
                           hops := [{ hop_number := 1, ip := "10.0.0.1" }],
                           completed := false }).hops,
      h.hostname ≠ "UNREACHABLE" ∧ h.is_timeout = false := by
  decide

/-- Claim C7 (amended): `_cleanup_trace` applied to any non-completed path
containing at least one real hop yields exactly the real hops in order,
followed by exactly one synthetic trailing hop (hostname "UNREACHABLE",
is_timeout, hop number one past the last real hop, ip the target) if and only
if the original path contains a timeout hop with a hop number greater than the
last real hop's; moreover every hop of the result except possibly that
synthetic trailing hop is a real hop (no interior timeout hop survives). -/
theorem claim_c7_cleanup_trace_incomplete (p : TraceroutePath) (r : TracerouteHop)
    (rs : List TracerouteHop) (hc : p.completed = false)
    (hreal : p.hops.filter isRealHop = r :: rs) :
    ((cleanup_trace p).hops
        = (r :: rs) ++
          (if p.hops.any (fun x => x.is_timeout && (rs.getLastD r).hop_number < x.hop_number)
           then [unreachableHop ((rs.getLastD r).hop_number + 1) p.target] else [])) ∧
    ∀ h ∈ (cleanup_trace p).hops,
      isRealHop h = true ∨ h = unreachableHop ((rs.getLastD r).hop_number + 1) p.target := by
  have hmem : ∀ h ∈ r :: rs, isRealHop h = true := by
    intro h hm
    exact (List.mem_filter.mp (hreal ▸ hm)).2
  rw [cleanup_trace_of_real p r rs hc hreal]
  by_cases hany :
      p.hops.any (fun x => x.is_timeout && (rs.getLastD r).hop_number < x.hop_number) = true
  · rw [if_pos hany, if_pos hany]
    refine ⟨rfl, ?_⟩
    intro h hm
    simp only [List.mem_append, List.mem_singleton] at hm
    rcases hm with hm | hm
    · exact Or.inl (hmem h hm)
    · exact Or.inr hm
  · rw [if_neg hany, if_neg hany]
    refine ⟨by simp, ?_⟩
    intro h hm
    exact Or.inl (hmem h hm)

/-- Witness for C7 (amended) at a concrete path with one real hop followed by a
trailing timeout hop. -/
theorem claim_c7_witness :
    ((cleanup_trace { target := "10.0.0.9",
                      hops := [{ hop_number := 1, ip := "10.0.0.1" },
                               { hop_number := 2, is_timeout := true }],
                      completed := false }).hops
        = [{ hop_number := 1, ip := "10.0.0.1" }] ++
          (if ([{ hop_number := 1, ip := "10.0.0.1" },
                ({ hop_number := 2, is_timeout := true } : TracerouteHop)].any
                  (fun x => x.is_timeout &&
                    (([] : List TracerouteHop).getLastD
                        { hop_number := 1, ip := "10.0.0.1" }).hop_number < x.hop_number))
           then [unreachableHop
                  ((([] : List TracerouteHop).getLastD
                      { hop_number := 1, ip := "10.0.0.1" }).hop_number + 1) "10.0.0.9"]
           else [])) ∧
    ∀ h ∈ (cleanup_trace { target := "10.0.0.9",
                           hops := [{ hop_number := 1, ip := "10.0.0.1" },
                                    { hop_number := 2, is_timeout := true }],
                           completed := false }).hops,
      isRealHop h = true ∨
        h = unreachableHop
              ((([] : List TracerouteHop).getLastD
                  { hop_number := 1, ip := "10.0.0.1" }).hop_number + 1) "10.0.0.9" :=
  claim_c7_cleanup_trace_incomplete
    { target := "10.0.0.9",
      hops := [{ hop_number := 1, ip := "10.0.0.1" },
               { hop_number := 2, is_timeout := true }],
      completed := false }
    { hop_number := 1, ip := "10.0.0.1" } [] rfl (by decide)

/-- Claim C10: `_cleanup_trace` is idempotent — re-running the cleanup on an
already-cleaned path changes nothing. -/
theorem claim_c10_cleanup_trace_idempotent (p : TraceroutePath) :
    cleanup_trace (cleanup_trace p) = cleanup_trace p := by
  by_cases hc : p.completed = true
  · rw [cleanup_trace_of_completed p hc, cleanup_trace_of_completed p hc]
  · have hc' : p.completed = false := by
      cases hcc : p.completed
      · rfl
      · exact absurd hcc hc
    rcases hfe : p.hops.filter isRealHop with _ | ⟨r, rs⟩
    · rw [cleanup_trace_of_no_real p hc' hfe]
      exact cleanup_trace_of_no_real
        { p with hops := [unreachableHop 1 p.target] } hc'
        (by simp [isRealHop, unreachableHop])
    · have hmem : ∀ h ∈ r :: rs, isRealHop h = true := by
        intro h hm
        exact (List.mem_filter.mp (hfe ▸ hm)).2
      have hself : (r :: rs).filter isRealHop = r :: rs := List.filter_eq_self.mpr hmem
      rw [cleanup_trace_of_real p r rs hc' hfe]
      by_cases hany :
          p.hops.any (fun x => x.is_timeout && (rs.getLastD r).hop_number < x.hop_number) = true
      · rw [if_pos hany]
        have hqf : ((r :: rs) ++
              [unreachableHop ((rs.getLastD r).hop_number + 1) p.target]).filter isRealHop
            = r :: rs := by
          rw [List.filter_append, hself]
          simp [isRealHop, unreachableHop]
        have h2 := cleanup_trace_of_real
          { p with hops :=
              (r :: rs) ++ [unreachableHop ((rs.getLastD r).hop_number + 1) p.target] }
          r rs hc' hqf
        rw [h2, if_pos]
        simp [List.any_append, unreachableHop]
      · rw [if_neg hany]
        have h2 := cleanup_trace_of_real { p with hops := r :: rs } r rs hc' hself
        rw [h2, if_neg]
        intro hcon
        simp only [List.any_eq_true, Bool.and_eq_true, decide_eq_true_eq] at hcon
        obtain ⟨x, hx, hxt, _⟩ := hcon
        have := hmem x hx
        simp [isRealHop, hxt] at this

/-! ### `_validate_interface_name` (_util.py lines 34-36) and its use in
`discover_local_interface` (scanner.py lines 80-82) -/

/-- A character of the allow-list `[a-zA-Z0-9._-]`. -/
def allowedIfaceChar (c : Char) : Bool :=
  ('a' ≤ c && c ≤ 'z') || ('A' ≤ c && c ≤ 'Z') || ('0' ≤ c && c ≤ '9') ||
    c == '.' || c == '_' || c == '-'

/-- A nonempty run of allow-list characters, i.e. `[a-zA-Z0-9._-]+`. -/
def allowedIfaceRun (l : List Char) : Bool :=
  !l.isEmpty && l.all allowedIfaceChar

/-- The `_validate_interface_name` of _util.py:
`bool(re.match(r"^[a-zA-Z0-9._-]+$", name))`.  In Python the `$` anchor
matches at the end of the string or just before a newline at the end of the
string, so the regex also accepts a single trailing `'\n'` after the run. -/
def validate_interface_name (name : String) : Bool :=
  allowedIfaceRun name.toList ||
    (name.toList.getLast? == some '\n' && allowedIfaceRun name.toList.dropLast)

/-- scanner.py lines 80-82 (`discover_local_interface`): a name failing
validation is fatal (`sys.exit(1)`), modelled as `Except.error`. -/
def interface_name_gate (name : String) : Except Unit String :=
  if validate_interface_name name then Except.ok name else Except.error ()

/-- The allow-list language as the claim states it, plus the trailing-newline
variant the Python `$` anchor adds. -/
def IfaceNameSpec (name : String) : Prop :=
  (name.toList ≠ [] ∧ ∀ c ∈ name.toList, allowedIfaceChar c = true) ∨
  (∃ core, name.toList = core ++ ['\n'] ∧ core ≠ [] ∧ ∀ c ∈ core, allowedIfaceChar c = true)

example : validate_interface_name "eth0" = true := by decide
example : validate_interface_name "eth 0" = false := by decide
example : validate_interface_name "" = false := by decide
example : validate_interface_name "br0.1" = true := by decide

/-- Claim C8 counterexample: the string "eth0\n" (a valid run followed by a
trailing newline) is accepted by `_validate_interface_name`, although it
contains a character outside the allow-list — the Python `$` anchor matches
before a trailing newline.  This contradicts the claim that validation
returns true only for strings consisting solely of allow-list characters. -/
theorem claim_c8_counterexample :
    validate_interface_name "eth0\n" = true ∧
    ¬ (∀ c ∈ "eth0\n".toList, allowedIfaceChar c = true) := by
  decide

/-- Claim C8 (amended): `_validate_interface_name(name)` returns true if and
only if name is a non-empty string of allow-list characters `[a-zA-Z0-9._-]`,
optionally followed by exactly one trailing newline (an artifact of Python's
`$` anchor); every other string is rejected, and `discover_local_interface`
exits the process fatally (modelled as `Except.error`) exactly when
validation fails. -/
theorem claim_c8_validate_interface_name (name : String) :
    (validate_interface_name name = true ↔ IfaceNameSpec name) ∧
    (interface_name_gate name = Except.ok name ↔ IfaceNameSpec name) ∧
    (interface_name_gate name = Except.error () ↔ ¬ IfaceNameSpec name) := by
  have hiff : validate_interface_name name = true ↔ IfaceNameSpec name := by
    unfold validate_interface_name IfaceNameSpec allowedIfaceRun
    constructor
    · intro h
      simp only [Bool.or_eq_true, Bool.and_eq_true] at h
      rcases h with ⟨hne, hall⟩ | ⟨hlast, hne, hall⟩
      · left
        exact ⟨by simpa using hne, fun c hc => List.all_eq_true.mp hall c hc⟩
      · right
        have hlast' : name.toList.getLast? = some '\n' := by
          simpa using hlast
        have hnil : name.toList ≠ [] := by
          intro he
          rw [he] at hlast'
          simp at hlast'
        refine ⟨name.toList.dropLast, ?_, by simpa using hne,
          fun c hc => List.all_eq_true.mp hall c hc⟩
        have hg : name.toList.getLast hnil = '\n' := by
          have := List.getLast?_eq_getLast name.toList hnil
          rw [this] at hlast'
          exact Option.some.inj hlast'
        rw [← hg]
        exact (List.dropLast_append_getLast hnil).symm
    · intro h
      rcases h with ⟨hne, hall⟩ | ⟨core, heq, hne, hall⟩
      · apply Bool.or_eq_true_iff.mpr
        left
        simp only [Bool.and_eq_true]
        exact ⟨by simpa using hne, List.all_eq_true.mpr hall⟩
      · apply Bool.or_eq_true_iff.mpr
        right
        rw [heq]
        simp only [Bool.and_eq_true, List.getLast?_concat, List.dropLast_concat]
        exact ⟨by simp, by simpa using hne, List.all_eq_true.mpr hall⟩
  refine ⟨hiff, ?_, ?_⟩
  · unfold interface_name_gate
    by_cases hv : validate_interface_name name = true
    · rw [if_pos hv]
      simp [hiff.mp hv]
    · rw [if_neg hv]
      constructor
      · intro hcon
        exact absurd hcon (by simp)
      · intro hs
        exact absurd (hiff.mpr hs) hv
  · unfold interface_name_gate
    by_cases hv : validate_interface_name name = true
    · rw [if_pos hv]
      constructor
      · intro hcon
        exact absurd hcon (by simp)
      · intro hs
        exact absurd (hiff.mp hv) hs
    · rw [if_neg hv]
      simp only [true_iff]
      intro hs
      exact hv (hiff.mpr hs)

/-- Witness for C8 (amended) at the concrete name "eth0". -/
theorem claim_c8_witness :
    (validate_interface_name "eth0" = true ↔ IfaceNameSpec "eth0") ∧
    (interface_name_gate "eth0" = Except.ok "eth0" ↔ IfaceNameSpec "eth0") ∧
    (interface_name_gate "eth0" = Except.error () ↔ ¬ IfaceNameSpec "eth0") :=
  claim_c8_validate_interface_name "eth0"

/-! ### Dict lookup lemmas -/

theorem dget_nil {α : Type} (k : String) : dget ([] : List (String × α)) k = none := rfl

theorem dget_append {α : Type} (d₁ d₂ : List (String × α)) (k : String) :
    dget (d₁ ++ d₂) k = (dget d₂ k <|> dget d₁ k) := by
  unfold dget
  rw [List.reverse_append, List.find?_append]
  cases List.find? (fun p => p.1 == k) d₂.reverse <;> rfl

theorem dget_append_of_isSome {α : Type} (d₁ d₂ : List (String × α)) (k : String)
    (h : (dget d₂ k).isSome) : dget (d₁ ++ d₂) k = dget d₂ k := by
  rw [dget_append]
  obtain ⟨v, hv⟩ := Option.isSome_iff_exists.mp h
  rw [hv]
  rfl

theorem dget_append_of_none {α : Type} (d₁ d₂ : List (String × α)) (k : String)
    (h : dget d₂ k = none) : dget (d₁ ++ d₂) k = dget d₁ k := by
  rw [dget_append, h]
  rfl

theorem find?_map_key_of_unique {α γ : Type} (key : α → String) (val : α → γ)
    (l : List α) (p : α) (hp : p ∈ l)
    (hu : ∀ q ∈ l, key q = key p → q = p) :
    (l.map (fun a => (key a, val a))).find? (fun e => e.1 == key p)
      = some (key p, val p) := by
  induction l with
  | nil => cases hp
  | cons x xs ih =>
    rw [List.map_cons, List.find?_cons]
    by_cases hx : key x = key p
    · have hxp : x = p := hu x (List.mem_cons_self x xs) hx
      subst hxp
      simp [hx]
    · have hbeq : ((key x == key p) : Bool) = false := by
        simpa using hx
      simp only [hbeq]
      have hp' : p ∈ xs := by
        rcases List.mem_cons.mp hp with h | h
        · exact absurd (h ▸ rfl) hx
        · exact h
      exact ih hp' (fun q hq hkq => hu q (List.mem_cons_of_mem _ hq) hkq)

/-! ### `NetworkTopologyScanner.build_topology_tree` (scanner.py lines 593-634) -/

/-- The parent assigned to `path.target` (scanner.py lines 610-623): gateway
for zero or one real hops, otherwise the penultimate real hop's IP
(`real_hops[-2].ip`). -/
def pathParent (gateway_ip : String) (p : TraceroutePath) : String :=
  match p.hops.filter isRealHop with
  | [] => gateway_ip
  | [_] => gateway_ip
  | r :: r2 :: rs => ((r :: r2 :: rs).dropLast.getLastD r).ip

/-- The IPs added to `infrastructure_ips` for one path (scanner.py lines
624-627): in the two-or-more-real-hops branch, every real hop except the last
(`real_hops[:-1]`) whose IP is a known host IP and differs from the
gateway. -/
def pathInfraIps (host_ips : List String) (gateway_ip : String)
    (p : TraceroutePath) : List String :=
  match p.hops.filter isRealHop with
  | [] => []
  | [_] => []
  | r :: r2 :: rs =>
    (r :: r2 :: rs).dropLast.filterMap
      (fun h => if h.ip ∈ host_ips ∧ h.ip ≠ gateway_ip then some h.ip else none)

/-- scanner.py `build_topology_tree`: returns the updated host list (the
Python code mutates `hosts` in place, setting `is_infrastructure`) together
with the parent dict `{host_ip: parent_ip}`. -/
def build_topology_tree (hosts : List DiscoveredHost) (trace_paths : List TraceroutePath)
    (gateway_ip : String) : List DiscoveredHost × List (String × String) :=
  let host_ips := hosts.map DiscoveredHost.ip
  let tree := trace_paths.map (fun p => (p.target, pathParent gateway_ip p))
  let infra := trace_paths.flatMap (pathInfraIps host_ips gateway_ip)
  (hosts.map (fun h =>
      if h.ip ∈ infra then { h with is_infrastructure := true } else h),
   tree)

theorem mem_pathInfraIps (hips : List String) (g : String) (q : TraceroutePath)
    (x : String) :
    x ∈ pathInfraIps hips g q ↔
      ∃ hop ∈ (q.hops.filter isRealHop).dropLast,
        hop.ip = x ∧ x ∈ hips ∧ x ≠ g := by
  unfold pathInfraIps
  rcases hfe : q.hops.filter isRealHop with _ | ⟨r, rs⟩
  · simp
  · rcases rs with _ | ⟨r2, rs'⟩
    · simp
    · simp only [List.mem_filterMap]
      constructor
      · rintro ⟨hop, hm, hf⟩
        by_cases hc : hop.ip ∈ hips ∧ hop.ip ≠ g
        · rw [if_pos hc] at hf
          have hx : hop.ip = x := Option.some.inj hf
          exact ⟨hop, hm, hx, hx ▸ hc.1, hx ▸ hc.2⟩
        · rw [if_neg hc] at hf
          cases hf
      · rintro ⟨hop, hm, rfl, hin, hne⟩
        exact ⟨hop, hm, by rw [if_pos ⟨hin, hne⟩]⟩

/-- Dict lookup on the tree built from the path list: under uniqueness of the
target among the paths, the parent of `p.target` is `pathParent g p`. -/
theorem dget_topology_tree (paths : List TraceroutePath) (g : String)
    (p : TraceroutePath) (hp : p ∈ paths)
    (hu : ∀ q ∈ paths, q.target = p.target → q = p) :
    dget (paths.map (fun q => (q.target, pathParent g q))) p.target
      = some (pathParent g p) := by
  unfold dget
  rw [← List.map_reverse]
  rw [find?_map_key_of_unique (fun q => q.target) (pathParent g) paths.reverse p
    (List.mem_reverse.mpr hp)
    (fun q hq hkq => hu q (List.mem_reverse.mp hq) hkq)]
  rfl

/-- Claim C5 counterexample: with gateway 10.0.0.1 and a path whose three real
hops are 10.0.0.2 → 10.0.0.3 → 10.0.0.4 (so the first hop is a known host that
is NOT the gateway), `build_topology_tree` flags the host 10.0.0.2 as
infrastructure even though 10.0.0.2 is not strictly between the first and last
hop (the strictly-between IPs are exactly ["10.0.0.3"]): the code iterates
over `real_hops[:-1]`, which includes the first hop. -/
theorem claim_c5_counterexample :
    (∃ h ∈ (build_topology_tree
        [{ ip := "10.0.0.2" }, { ip := "10.0.0.3" }, { ip := "10.0.0.4" }]
        [{ target := "10.0.0.4",
           hops := [{ hop_number := 1, ip := "10.0.0.2" },
                    { hop_number := 2, ip := "10.0.0.3" },
                    { hop_number := 3, ip := "10.0.0.4" }] }]
        "10.0.0.1").1,
      h.ip = "10.0.0.2" ∧ h.is_infrastructure = true) ∧
    ((([{ hop_number := 1, ip := "10.0.0.2" },
        { hop_number := 2, ip := "10.0.0.3" },
        { hop_number := 3, ip := "10.0.0.4" }] : List TracerouteHop).filter
          isRealHop).drop 1).dropLast.map TracerouteHop.ip = ["10.0.0.3"] := by
  decide

/-- Claim C5 (amended): for every path (whose target is unique in the path
list), a path with zero or one real hops gets the gateway as its target's
parent; a path with two or more real hops gets the penultimate real hop's IP
(the last element of `real_hops.dropLast`); and exactly the real hops other
than the last one — including the first — whose IP matches a known host and is
not gateway_ip have that host flagged is_infrastructure (a host is flagged in
the output iff it was flagged in the input or its IP is such a hop IP of some
path). -/
theorem claim_c5_build_topology_tree (hosts : List DiscoveredHost)
    (paths : List TraceroutePath) (g : String) (p : TraceroutePath)
    (hp : p ∈ paths) (hu : ∀ q ∈ paths, q.target = p.target → q = p) :
    ((p.hops.filter isRealHop).length ≤ 1 →
        dget (build_topology_tree hosts paths g).2 p.target = some g) ∧
    (∀ penult, (p.hops.filter isRealHop).dropLast.getLast? = some penult →
        dget (build_topology_tree hosts paths g).2 p.target = some penult.ip) ∧
    List.Forall₂ (fun h0 h1 => h1.ip = h0.ip ∧
        (h1.is_infrastructure = true ↔ (h0.is_infrastructure = true ∨
          ∃ q ∈ paths, ∃ hop ∈ (q.hops.filter isRealHop).dropLast,
            hop.ip = h0.ip ∧ h0.ip ∈ hosts.map DiscoveredHost.ip ∧ h0.ip ≠ g)))
      hosts (build_topology_tree hosts paths g).1 := by
  have htree : (build_topology_tree hosts paths g).2
      = paths.map (fun q => (q.target, pathParent g q)) := rfl
  have hdget := dget_topology_tree paths g p hp hu
  refine ⟨?_, ?_, ?_⟩
  · intro hlen
    rw [htree, hdget]
    have hpar : pathParent g p = g := by
      unfold pathParent
      rcases hfe : p.hops.filter isRealHop with _ | ⟨r, rs⟩
      · rfl
      · rcases rs with _ | ⟨r2, rs'⟩
        · rfl
        · rw [hfe] at hlen
          simp at hlen
    rw [hpar]
  · intro penult hpen
    rw [htree, hdget]
    have hpar : pathParent g p = penult.ip := by
      unfold pathParent
      rcases hfe : p.hops.filter isRealHop with _ | ⟨r, rs⟩
      · rw [hfe] at hpen
        simp at hpen
      · rcases rs with _ | ⟨r2, rs'⟩
        · rw [hfe] at hpen
          simp at hpen
        · rw [hfe] at hpen
          show (((r :: r2 :: rs').dropLast.getLastD r).ip) = penult.ip
          rw [List.getLastD_eq_getLast?, hpen]
          rfl
    rw [hpar]
  · have hmap : (build_topology_tree hosts paths g).1 = hosts.map (fun h =>
        if h.ip ∈ paths.flatMap (pathInfraIps (hosts.map DiscoveredHost.ip) g)
        then { h with is_infrastructure := true } else h) := rfl
    rw [hmap, List.forall₂_map_right_iff]
    apply List.forall₂_same.mpr
    intro h0 hm
    by_cases hin : h0.ip ∈ paths.flatMap (pathInfraIps (hosts.map DiscoveredHost.ip) g)
    · rw [if_pos hin]
      refine ⟨rfl, ?_⟩
      constructor
      · intro _
        right
        obtain ⟨q, hq, hxq⟩ := List.mem_flatMap.mp hin
        obtain ⟨hop, hh, hipx, hmem, hneg⟩ := (mem_pathInfraIps _ _ _ _).mp hxq
        exact ⟨q, hq, hop, hh, hipx, hmem, hneg⟩
      · intro _
        rfl
    · rw [if_neg hin]
      refine ⟨rfl, ?_⟩
      constructor
      · intro hflag
        exact Or.inl hflag
      · rintro (hflag | ⟨q, hq, hop, hh, hipx, hmem, hneg⟩)
        · exact hflag
        · exact absurd (List.mem_flatMap.mpr
            ⟨q, hq, (mem_pathInfraIps _ _ _ _).mpr ⟨hop, hh, hipx, hmem, hneg⟩⟩) hin

/-- A concrete host list used to witness the `build_topology_tree` claim. -/
def c5wHosts : List DiscoveredHost :=
  [{ ip := "10.0.0.1", is_gateway := true }, { ip := "10.0.0.3" }, { ip := "10.0.0.4" }]

/-- A concrete three-real-hop traceroute path used to witness the
`build_topology_tree` claim. -/
def c5wPath : TraceroutePath :=
  { target := "10.0.0.4",
    hops := [{ hop_number := 1, ip := "10.0.0.1" },
             { hop_number := 2, ip := "10.0.0.3" },
             { hop_number := 3, ip := "10.0.0.4" }] }

/-- Witness for C5 (amended) at a concrete three-real-hop path. -/
theorem claim_c5_witness :
    ((c5wPath.hops.filter isRealHop).length ≤ 1 →
        dget (build_topology_tree c5wHosts [c5wPath] "10.0.0.1").2 c5wPath.target
          = some "10.0.0.1") ∧
    (∀ penult, (c5wPath.hops.filter isRealHop).dropLast.getLast? = some penult →
        dget (build_topology_tree c5wHosts [c5wPath] "10.0.0.1").2 c5wPath.target
          = some penult.ip) ∧
    List.Forall₂ (fun h0 h1 => h1.ip = h0.ip ∧
        (h1.is_infrastructure = true ↔ (h0.is_infrastructure = true ∨
          ∃ q ∈ [c5wPath], ∃ hop ∈ (q.hops.filter isRealHop).dropLast,
            hop.ip = h0.ip ∧ h0.ip ∈ c5wHosts.map DiscoveredHost.ip ∧
              h0.ip ≠ "10.0.0.1")))
      c5wHosts (build_topology_tree c5wHosts [c5wPath] "10.0.0.1").1 :=
  claim_c5_build_topology_tree c5wHosts [c5wPath] "10.0.0.1" c5wPath
    (by decide) (by decide)

/-! ### `identify_hosts` (scanner.py lines 210-272) -/

/-- Split a character list at every `'.'` (the effect of `s.split(".")` on a
dotted-quad literal). -/
def splitOnDot : List Char → List (List Char)
  | [] => [[]]
  | c :: cs =>
    if c = '.' then [] :: splitOnDot cs
    else
      match splitOnDot cs with
      | [] => [[c]]
      | t :: ts => (c :: t) :: ts

/-- Decimal value of a digit run. -/
def octetVal (t : List Char) : Nat :=
  t.foldl (fun n c => n * 10 + (c.toNat - '0'.toNat)) 0

/-- One octet of a dotted-quad IPv4 literal as accepted by Python's
`ipaddress.IPv4Address`: decimal digits, no leading zero, value at most
255. -/
def ipv4OctetValid (t : List Char) : Bool :=
  !t.isEmpty && t.all Char.isDigit && (t = ['0'] || t.head? ≠ some '0') &&
    octetVal t ≤ 255

/-- Validity of a dotted-quad IPv4 literal. -/
def ipv4Valid (s : String) : Bool :=
  match splitOnDot s.toList with
  | [a, b, c, d] => ipv4OctetValid a && ipv4OctetValid b && ipv4OctetValid c && ipv4OctetValid d
  | _ => false

/-- Numeric value of a dotted-quad IPv4 literal (the integer underlying
Python's `ipaddress.IPv4Address`, whose comparison is numeric); strings
that are not valid quads map to arbitrary values — the modelled pipeline
only compares values of literals that parsed (`ipv4Valid`). -/
def ipv4Val (s : String) : Nat :=
  match splitOnDot s.toList with
  | [a, b, c, d] => ((octetVal a * 256 + octetVal b) * 256 + octetVal c) * 256 + octetVal d
  | _ => 0

/-- The side-effecting enrichment calls of `identify_hosts`, passed in as
oracles: reverse DNS (`_reverse_dns`), OUI vendor lookup (`lookup_vendor`),
nmap service scan (`_nmap_scan`), and host categorization
(`_categorize_host(host).value`).  The claims under study do not constrain
their outputs. -/
structure ScanEnv where
  reverse_dns : String → String
  lookup_vendor : String → String
  nmap_scan : String → List String
  categorize : DiscoveredHost → String

/-- The Python sort key of scanner.py line 266:
`(not h.is_gateway, ipaddress.IPv4Address(h.ip))`. -/
def hostSortKey (h : DiscoveredHost) : Nat × Nat :=
  ((if h.is_gateway then 0 else 1), ipv4Val h.ip)

/-- Lexicographic comparison of host sort keys (Python tuple comparison). -/
def keyLE (a b : DiscoveredHost) : Prop :=
  (hostSortKey a).1 < (hostSortKey b).1 ∨
    ((hostSortKey a).1 = (hostSortKey b).1 ∧ (hostSortKey a).2 ≤ (hostSortKey b).2)

instance (a b : DiscoveredHost) : Decidable (keyLE a b) := by
  unfold keyLE
  infer_instance

/-- Stable insertion: `x` goes after every element already ≤ it, matching the
stability of Python's `list.sort`. -/
def insertHost (x : DiscoveredHost) : List DiscoveredHost → List DiscoveredHost
  | [] => [x]
  | y :: ys => if keyLE y x then y :: insertHost x ys else x :: y :: ys

/-- Stable insertion sort by the Python sort key (`hosts.sort(key=...)`). -/
def sortHosts (l : List DiscoveredHost) : List DiscoveredHost :=
  l.foldl (fun acc x => insertHost x acc) []

/-- The `DiscoveredHost` built for one raw `(ip, mac)` pair (scanner.py lines
228-251). -/
def enrichHost (env : ScanEnv) (use_nmap : Bool) (gateway_ip : String)
    (rm : String × String) : DiscoveredHost :=
  { ip := rm.1, mac := rm.2,
    hostname := env.reverse_dns rm.1,
    vendor := env.lookup_vendor rm.2,
    services := if use_nmap && ipv4Valid rm.1 then env.nmap_scan rm.1 else [],
    is_gateway := rm.1 = gateway_ip }

/-- The list built by the main loop of `identify_hosts`: every raw pair except
the local IP, enriched. -/
def rawHostsOf (env : ScanEnv) (use_nmap : Bool) (local_ip : String)
    (raw_hosts : List (String × String)) (gateway_ip : String) :
    List DiscoveredHost :=
  raw_hosts.filterMap (fun rm =>
    if rm.1 = local_ip then none else some (enrichHost env use_nmap gateway_ip rm))

/-- The synthesized gateway entry (scanner.py lines 254-263). -/
def synthGateway (env : ScanEnv) (gateway_ip : String) : DiscoveredHost :=
  { ip := gateway_ip, hostname := env.reverse_dns gateway_ip, is_gateway := true }

/-- scanner.py `identify_hosts`: enrich raw `(ip, mac)` pairs (skipping the
local IP), mark the gateway, synthesize a gateway entry when absent, sort
(gateway first, then ascending numeric IP), and categorize. -/
def identify_hosts (env : ScanEnv) (use_nmap : Bool) (local_ip : String)
    (raw_hosts : List (String × String)) (gateway_ip : String) :
    List DiscoveredHost :=
  let hosts := rawHostsOf env use_nmap local_ip raw_hosts gateway_ip
  let hosts2 :=
    if gateway_ip ≠ "" ∧ ¬ hosts.any (fun h => h.ip == gateway_ip) then
      synthGateway env gateway_ip :: hosts
    else hosts
  (sortHosts hosts2).map (fun h => { h with category := env.categorize h })

theorem keyLE_total (a b : DiscoveredHost) : keyLE a b ∨ keyLE b a := by
  unfold keyLE
  rcases Nat.lt_trichotomy (hostSortKey a).1 (hostSortKey b).1 with h | h | h
  · exact Or.inl (Or.inl h)
  · rcases Nat.le_total (hostSortKey a).2 (hostSortKey b).2 with h2 | h2
    · exact Or.inl (Or.inr ⟨h, h2⟩)
    · exact Or.inr (Or.inr ⟨h.symm, h2⟩)
  · exact Or.inr (Or.inl h)

theorem keyLE_trans {a b c : DiscoveredHost} (h1 : keyLE a b) (h2 : keyLE b c) :
    keyLE a c := by
  unfold keyLE at h1 h2 ⊢
  rcases h1 with h1 | ⟨h1e, h1le⟩
  · rcases h2 with h2 | ⟨h2e, _⟩
    · exact Or.inl (h1.trans h2)
    · exact Or.inl (h2e ▸ h1)
  · rcases h2 with h2 | ⟨h2e, h2le⟩
    · exact Or.inl (h1e ▸ h2)
    · exact Or.inr ⟨h1e.trans h2e, h1le.trans h2le⟩

theorem insertHost_perm (x : DiscoveredHost) (l : List DiscoveredHost) :
    (insertHost x l).Perm (x :: l) := by
  induction l with
  | nil => exact List.Perm.refl _
  | cons y ys ih =>
    unfold insertHost
    by_cases h : keyLE y x
    · rw [if_pos h]
      exact (ih.cons y).trans (List.Perm.swap x y ys)
    · rw [if_neg h]

theorem sortHosts_perm (l : List DiscoveredHost) : (sortHosts l).Perm l := by
  suffices hgen : ∀ (acc : List DiscoveredHost),
      (l.foldl (fun acc x => insertHost x acc) acc).Perm (acc ++ l) by
    simpa using hgen []
  induction l with
  | nil => intro acc; simp
  | cons x xs ih =>
    intro acc
    rw [List.foldl_cons]
    refine (ih (insertHost x acc)).trans ?_
    refine (((insertHost_perm x acc).append_right xs).trans ?_)
    exact List.perm_middle.symm

theorem insertHost_pairwise (x : DiscoveredHost) (l : List DiscoveredHost)
    (hs : l.Pairwise keyLE) : (insertHost x l).Pairwise keyLE := by
  induction l with
  | nil => simp [insertHost]
  | cons y ys ih =>
    rcases List.pairwise_cons.mp hs with ⟨hy, hys⟩
    unfold insertHost
    by_cases h : keyLE y x
    · rw [if_pos h]
      refine List.pairwise_cons.mpr ⟨?_, ih hys⟩
      intro z hz
      have hz2 : z ∈ x :: ys := (insertHost_perm x ys).mem_iff.mp hz
      rcases List.mem_cons.mp hz2 with rfl | hz'
      · exact h
      · exact hy z hz'
    · rw [if_neg h]
      refine List.pairwise_cons.mpr ⟨?_, hs⟩
      intro z hz
      rcases List.mem_cons.mp hz with heq | hz'
      · subst heq
        exact (keyLE_total z x).resolve_left h
      · exact keyLE_trans ((keyLE_total y x).resolve_left h) (hy z hz')

theorem sortHosts_pairwise (l : List DiscoveredHost) :
    (sortHosts l).Pairwise keyLE := by
  suffices hgen : ∀ (acc : List DiscoveredHost), acc.Pairwise keyLE →
      (l.foldl (fun acc x => insertHost x acc) acc).Pairwise keyLE by
    exact hgen [] List.Pairwise.nil
  induction l with
  | nil => intro acc hacc; simpa using hacc
  | cons x xs ih =>
    intro acc hacc
    rw [List.foldl_cons]
    exact ih (insertHost x acc) (insertHost_pairwise x acc hacc)

theorem mem_rawHostsOf {env : ScanEnv} {use_nmap : Bool} {local_ip gw : String}
    {raw : List (String × String)} {h : DiscoveredHost} :
    h ∈ rawHostsOf env use_nmap local_ip raw gw ↔
      ∃ rm ∈ raw, rm.1 ≠ local_ip ∧ h = enrichHost env use_nmap gw rm := by
  unfold rawHostsOf
  rw [List.mem_filterMap]
  constructor
  · rintro ⟨rm, hrm, hf⟩
    by_cases hl : rm.1 = local_ip
    · rw [if_pos hl] at hf
      cases hf
    · rw [if_neg hl] at hf
      exact ⟨rm, hrm, hl, (Option.some.inj hf).symm⟩
  · rintro ⟨rm, hrm, hl, rfl⟩
    exact ⟨rm, hrm, by rw [if_neg hl]⟩

theorem countP_rawHostsOf (env : ScanEnv) (use_nmap : Bool) (local_ip : String)
    (raw : List (String × String)) (gw : String) :
    (rawHostsOf env use_nmap local_ip raw gw).countP (fun h => h.is_gateway) =
      raw.countP (fun rm => decide (rm.1 ≠ local_ip ∧ rm.1 = gw)) := by
  induction raw with
  | nil => rfl
  | cons rm raws ih =>
    unfold rawHostsOf at ih ⊢
    rw [List.filterMap_cons, List.countP_cons]
    by_cases hl : rm.1 = local_ip
    · rw [if_pos hl]
      rw [ih]
      simp [hl]
    · rw [if_neg hl]
      rw [List.countP_cons, ih]
      have : (decide (rm.1 ≠ local_ip ∧ rm.1 = gw)) = decide (rm.1 = gw) := by
        simp [hl]
      rw [this]
      rfl

/-- A `keyLE` step from a non-gateway host to a gateway host is impossible
(the gateway key component 0 precedes the non-gateway component 1). -/
theorem not_keyLE_of_flags {a b : DiscoveredHost} (ha : a.is_gateway = false)
    (hb : b.is_gateway = true) : ¬ keyLE a b := by
  unfold keyLE hostSortKey
  rw [ha, hb]
  rintro (hlt | ⟨heq, _⟩)
  · simp at hlt
  · simp at heq

/-- Between two non-gateway hosts, `keyLE` is numeric IP comparison. -/
theorem keyLE_of_nongateway {a b : DiscoveredHost} (ha : a.is_gateway = false)
    (hb : b.is_gateway = false) (h : keyLE a b) : ipv4Val a.ip ≤ ipv4Val b.ip := by
  unfold keyLE hostSortKey at h
  rw [ha, hb] at h
  rcases h with hlt | ⟨_, hle⟩
  · simp at hlt
  · exact hle

/-- A concrete oracle environment for witnesses and counterexamples: all
enrichment lookups return empty results. -/
def constEnv : ScanEnv :=
  { reverse_dns := fun _ => "", lookup_vendor := fun _ => "",
    nmap_scan := fun _ => [], categorize := fun _ => "" }

/-- Claim C9 counterexample: when the raw scan reports the gateway IP twice
(two ARP replies for 10.0.0.5 with different MACs), `identify_hosts` returns
TWO hosts with is_gateway = true, contradicting the claim that the result
contains exactly one such host for every raw list. -/
theorem claim_c9_counterexample :
    ((identify_hosts constEnv false "10.0.0.99"
        [("10.0.0.5", "aa"), ("10.0.0.5", "bb")] "10.0.0.5").countP
      (fun h => h.is_gateway)) = 2 := by
  decide

/-- Claim C9 (amended): for every raw (ip, mac) list in which the (non-empty,
valid) gateway IP occurs at most once among the non-local entries, and whose
IPs are valid IPv4 literals, `identify_hosts` returns exactly one host with
is_gateway = true; every gateway-flagged host carries the gateway IP; the
gateway host comes first (with empty MAC when the gateway was absent from the
raw results), followed by the remaining, non-gateway hosts in ascending
numeric IPv4 order. -/
theorem claim_c9_identify_hosts (env : ScanEnv) (use_nmap : Bool)
    (local_ip : String) (raw : List (String × String)) (gw : String)
    (hgw : gw ≠ "")
    (hdup : raw.countP (fun rm => decide (rm.1 ≠ local_ip ∧ rm.1 = gw)) ≤ 1)
    (hvalid : ∀ rm ∈ raw, ipv4Valid rm.1 = true) (hgwv : ipv4Valid gw = true) :
    ((identify_hosts env use_nmap local_ip raw gw).countP
        (fun h => h.is_gateway) = 1) ∧
    (∀ h ∈ identify_hosts env use_nmap local_ip raw gw,
        h.is_gateway = true → h.ip = gw) ∧
    (∃ g rest, identify_hosts env use_nmap local_ip raw gw = g :: rest ∧
      g.is_gateway = true ∧ g.ip = gw ∧
      ((∀ rm ∈ raw, rm.1 = local_ip ∨ rm.1 ≠ gw) → g.mac = "") ∧
      (∀ h ∈ rest, h.is_gateway = false) ∧
      rest.Pairwise (fun a b => ipv4Val a.ip ≤ ipv4Val b.ip)) := by
  set H1 := rawHostsOf env use_nmap local_ip raw gw with hH1
  set H2 := if gw ≠ "" ∧ ¬ H1.any (fun h => h.ip == gw) then
      synthGateway env gw :: H1 else H1 with hH2
  have hout : identify_hosts env use_nmap local_ip raw gw
      = (sortHosts H2).map (fun h => { h with category := env.categorize h }) := rfl
  have hflagiff : ∀ h ∈ H1, (h.is_gateway = true ↔ h.ip = gw) := by
    intro h hm
    obtain ⟨rm, _, _, rfl⟩ := mem_rawHostsOf.mp hm
    show (decide (rm.1 = gw) = true ↔ rm.1 = gw)
    simp
  have hcnt1 : H1.countP (fun h => h.is_gateway) ≤ 1 := by
    rw [hH1, countP_rawHostsOf]
    exact hdup
  have hcnt2 : H2.countP (fun h => h.is_gateway) = 1 := by
    rw [hH2]
    by_cases hsyn : gw ≠ "" ∧ ¬ H1.any (fun h => h.ip == gw)
    · rw [if_pos hsyn]
      have hzero : H1.countP (fun h => h.is_gateway) = 0 := by
        apply List.countP_eq_zero.mpr
        intro h hm hfl
        exact hsyn.2 (List.any_eq_true.mpr
          ⟨h, hm, beq_iff_eq.mpr ((hflagiff h hm).mp hfl)⟩)
      rw [List.countP_cons, hzero]
      rfl
    · rw [if_neg hsyn]
      have hany : H1.any (fun h => h.ip == gw) = true := by
        by_contra hno
        exact hsyn ⟨hgw, fun hc => hno hc⟩
      obtain ⟨h0, hm0, hip0⟩ := List.any_eq_true.mp hany
      have hpos : 0 < H1.countP (fun h => h.is_gateway) :=
        List.countP_pos.mpr ⟨h0, hm0, (hflagiff h0 hm0).mpr (beq_iff_eq.mp hip0)⟩
      exact Nat.le_antisymm hcnt1 hpos
  have hflag2 : ∀ h ∈ H2, h.is_gateway = true → h.ip = gw := by
    intro h hm hf
    rw [hH2] at hm
    by_cases hsyn : gw ≠ "" ∧ ¬ H1.any (fun h => h.ip == gw)
    · rw [if_pos hsyn] at hm
      rcases List.mem_cons.mp hm with rfl | hm'
      · rfl
      · exact (hflagiff h hm').mp hf
    · rw [if_neg hsyn] at hm
      exact (hflagiff h hm).mp hf
  have hmac2 : (∀ rm ∈ raw, rm.1 = local_ip ∨ rm.1 ≠ gw) →
      ∀ h ∈ H2, h.is_gateway = true → h.mac = "" := by
    intro hno h hm hf
    have hnoflag : ∀ h' ∈ H1, h'.ip ≠ gw := by
      intro h' hm' hipeq
      obtain ⟨rm, hrm, hl, rfl⟩ := mem_rawHostsOf.mp hm'
      rcases hno rm hrm with hc | hc
      · exact hl hc
      · exact hc hipeq
    have hnoany : ¬ H1.any (fun h => h.ip == gw) = true := by
      intro hc
      obtain ⟨h0, hm0, hip0⟩ := List.any_eq_true.mp hc
      exact hnoflag h0 hm0 (beq_iff_eq.mp hip0)
    rw [hH2, if_pos ⟨hgw, hnoany⟩] at hm
    rcases List.mem_cons.mp hm with rfl | hm'
    · rfl
    · exact absurd ((hflagiff h hm').mp hf) (hnoflag h hm')
  have hperm := sortHosts_perm H2
  have hcntout : (identify_hosts env use_nmap local_ip raw gw).countP
      (fun h => h.is_gateway) = 1 := by
    rw [hout, List.countP_map]
    exact (hperm.countP_eq _).trans hcnt2
  have hmemout : ∀ h ∈ identify_hosts env use_nmap local_ip raw gw,
      ∃ h' ∈ H2, h = { h' with category := env.categorize h' } := by
    intro h hm
    rw [hout] at hm
    obtain ⟨h', hm', rfl⟩ := List.mem_map.mp hm
    exact ⟨h', hperm.mem_iff.mp hm', rfl⟩
  have hipout : ∀ h ∈ identify_hosts env use_nmap local_ip raw gw,
      h.is_gateway = true → h.ip = gw := by
    intro h hm hf
    obtain ⟨h', hm', rfl⟩ := hmemout h hm
    exact hflag2 h' hm' hf
  refine ⟨hcntout, hipout, ?_⟩
  have hpw : (identify_hosts env use_nmap local_ip raw gw).Pairwise keyLE := by
    rw [hout]
    exact (sortHosts_pairwise H2).map _ (fun a b hab => hab)
  rcases houts : identify_hosts env use_nmap local_ip raw gw with _ | ⟨g, rest⟩
  · rw [houts] at hcntout
    simp at hcntout
  · rw [houts] at hcntout hpw
    rcases List.pairwise_cons.mp hpw with ⟨hgle, hrestpw⟩
    have hgflag : g.is_gateway = true := by
      cases hgf : g.is_gateway
      · rw [List.countP_cons, hgf] at hcntout
        simp only [Bool.false_eq_true, if_false, Nat.add_zero] at hcntout
        obtain ⟨h0, hm0, hf0⟩ := List.countP_pos.mp (hcntout ▸ Nat.zero_lt_one)
        exact absurd (hgle h0 hm0) (not_keyLE_of_flags hgf hf0)
      · rfl
    have hrest0 : rest.countP (fun h => h.is_gateway) = 0 := by
      rw [List.countP_cons, hgflag] at hcntout
      simpa using hcntout
    have hrestflags : ∀ h ∈ rest, h.is_gateway = false := by
      intro h hm
      have := List.countP_eq_zero.mp hrest0 h hm
      simpa using this
    have hgmem : g ∈ identify_hosts env use_nmap local_ip raw gw := by
      rw [houts]
      exact List.mem_cons_self g rest
    refine ⟨g, rest, rfl, hgflag, hipout g hgmem hgflag, ?_, hrestflags, ?_⟩
    · intro hno
      obtain ⟨g', hm', hgeq⟩ := hmemout g hgmem
      have : g.mac = g'.mac := by rw [hgeq]
      rw [this]
      exact hmac2 hno g' hm' (by rw [hgeq] at hgflag; exact hgflag)
    · exact hrestpw.imp_of_mem (fun {a b} hma hmb hab =>
        keyLE_of_nongateway (hrestflags a hma) (hrestflags b hmb) hab)

/-- Witness for C9 (amended): two ordinary hosts and an absent gateway
10.0.0.1, which is synthesized and sorted first. -/
theorem claim_c9_witness :
    ((identify_hosts constEnv false "10.0.0.2"
        [("10.0.0.7", "aa"), ("10.0.0.3", "bb")] "10.0.0.1").countP
        (fun h => h.is_gateway) = 1) ∧
    (∀ h ∈ identify_hosts constEnv false "10.0.0.2"
        [("10.0.0.7", "aa"), ("10.0.0.3", "bb")] "10.0.0.1",
        h.is_gateway = true → h.ip = "10.0.0.1") ∧
    (∃ g rest, identify_hosts constEnv false "10.0.0.2"
        [("10.0.0.7", "aa"), ("10.0.0.3", "bb")] "10.0.0.1" = g :: rest ∧
      g.is_gateway = true ∧ g.ip = "10.0.0.1" ∧
      ((∀ rm ∈ [("10.0.0.7", "aa"), ("10.0.0.3", "bb")],
          rm.1 = "10.0.0.2" ∨ rm.1 ≠ "10.0.0.1") → g.mac = "") ∧
      (∀ h ∈ rest, h.is_gateway = false) ∧
      rest.Pairwise (fun a b => ipv4Val a.ip ≤ ipv4Val b.ip)) :=
  claim_c9_identify_hosts constEnv false "10.0.0.2"
    [("10.0.0.7", "aa"), ("10.0.0.3", "bb")] "10.0.0.1"
    (by decide) (by decide) (by decide) (by decide)

/-! ### `SnmpBridgeDiscovery.build_l2_topology` (snmp.py lines 285-372) -/

/-- Python `str.lower()` on the ASCII strings (MAC addresses) this pipeline
handles. -/
def lowerStr (s : String) : String := ⟨s.data.map Char.toLower⟩

/-- snmp.py lines 308-311: the dict `switch_macs` (switch_ip → lowercased
MAC), as its assignment history over the host list. -/
def switchMacs (hosts : List DiscoveredHost) (switch_ips : List String) :
    List (String × String) :=
  hosts.filterMap (fun h =>
    if h.ip ∈ switch_ips ∧ h.mac ≠ "" then some (h.ip, lowerStr h.mac) else none)

/-- snmp.py lines 313-319: the `(switch_ip, port_index)` pairs on which some
other queried switch's MAC was learned (uplink ports). -/
def uplinkPorts (mac_table : List (String × List SwitchPortMapping))
    (swmacs : List (String × String)) : List (String × Nat) :=
  (ditems swmacs).flatMap (fun sm =>
    ((dget mac_table sm.2).getD []).filterMap (fun m =>
      if m.switch_ip ≠ sm.1 then some (m.switch_ip, m.port_index) else none))

/-- snmp.py lines 335-343: the chosen mapping for one host — the first
mapping that is not on an uplink port, else the first mapping.
(`none` is returned only for an empty mapping list, on which the Python code
would raise `IndexError`; `discover()` never produces empty lists.) -/
def chooseBest (ups : List (String × Nat)) (mappings : List SwitchPortMapping) :
    Option SwitchPortMapping :=
  match mappings.find? (fun m => !(ups.contains (m.switch_ip, m.port_index))) with
  | some m => some m
  | none => mappings.head?

/-- snmp.py lines 324-353: the entry appended and the tree assignment made
for one host of the host loop (`none` when the host is skipped). -/
def hostStep (mac_table : List (String × List SwitchPortMapping))
    (ups : List (String × Nat)) (host : DiscoveredHost) :
    Option (L2TopologyEntry × (String × String)) :=
  if host.mac = "" ∨ host.is_gateway = true then none
  else
    match dget mac_table (lowerStr host.mac) with
    | none => none
    | some mappings =>
      match chooseBest ups mappings with
      | none => none
      | some best =>
        some ({ host_ip := host.ip, host_mac := host.mac, switch := best,
                source := "snmp" },
              (host.ip, best.switch_ip))

/-- snmp.py lines 355-370: the switch-to-switch entries and tree assignments
(switch B's MAC learned on switch A means `topology_tree[B] = A`). -/
def switchEdges (mac_table : List (String × List SwitchPortMapping))
    (swmacs : List (String × String)) :
    List (L2TopologyEntry × (String × String)) :=
  (ditems swmacs).flatMap (fun sm =>
    ((dget mac_table sm.2).getD []).filterMap (fun m =>
      if m.switch_ip ≠ sm.1 then
        some ({ host_ip := sm.1, host_mac := sm.2, switch := m, source := "snmp" },
              (sm.1, m.switch_ip))
      else none))

/-- The pair (l2_entries, topology_tree) returned by `build_l2_topology`. -/
structure L2Result where
  entries : List L2TopologyEntry
  tree : List (String × String)
deriving DecidableEq, Repr

/-- snmp.py `SnmpBridgeDiscovery.build_l2_topology`. -/
def build_l2_topology (hosts : List DiscoveredHost)
    (mac_table : List (String × List SwitchPortMapping))
    (switch_ips : List String) : L2Result :=
  let swmacs := switchMacs hosts switch_ips
  let ups := uplinkPorts mac_table swmacs
  let steps := hosts.filterMap (hostStep mac_table ups)
  let edges := switchEdges mac_table swmacs
  { entries := steps.map Prod.fst ++ edges.map Prod.fst,
    tree := steps.map Prod.snd ++ edges.map Prod.snd }

theorem chooseBest_mem {ups : List (String × Nat)}
    {ms : List SwitchPortMapping} {b : SwitchPortMapping}
    (h : chooseBest ups ms = some b) : b ∈ ms := by
  unfold chooseBest at h
  rcases hf : ms.find? (fun m => !(ups.contains (m.switch_ip, m.port_index))) with _ | m
  · rw [hf] at h
    cases ms with
    | nil => cases h
    | cons a l =>
      simp only [List.head?] at h
      exact (Option.some.inj h) ▸ List.mem_cons_self a l
  · rw [hf] at h
    exact (Option.some.inj h) ▸ List.mem_of_find?_eq_some hf

theorem chooseBest_of_exists_nonuplink {ups : List (String × Nat)}
    {ms : List SwitchPortMapping}
    (hex : ∃ m ∈ ms, ups.contains (m.switch_ip, m.port_index) = false) :
    ∃ b ∈ ms, chooseBest ups ms = some b ∧
      ups.contains (b.switch_ip, b.port_index) = false := by
  obtain ⟨m, hm, hup⟩ := hex
  rcases hf : ms.find? (fun m => !(ups.contains (m.switch_ip, m.port_index))) with _ | b
  · exfalso
    have := List.find?_eq_none.mp hf m hm
    rw [hup] at this
    simp at this
  · refine ⟨b, List.mem_of_find?_eq_some hf, ?_, ?_⟩
    · unfold chooseBest
      rw [hf]
    · have := List.find?_some hf
      simpa using this

theorem chooseBest_of_all_uplink {ups : List (String × Nat)}
    {ms : List SwitchPortMapping}
    (hall : ∀ m ∈ ms, ups.contains (m.switch_ip, m.port_index) = true) :
    chooseBest ups ms = ms.head? := by
  unfold chooseBest
  have hf : ms.find? (fun m => !(ups.contains (m.switch_ip, m.port_index))) = none := by
    apply List.find?_eq_none.mpr
    intro m hm
    rw [hall m hm]
    simp
  rw [hf]

/-- Claim C1: for every host list, MAC table and switch-IP set, whenever
`build_l2_topology` processes a non-gateway host whose lowercased MAC has at
least one mapping that is not an uplink port, the chosen L2TopologyEntry and
topology_tree assignment for that host use a non-uplink mapping from that
MAC's list; if every mapping is an uplink port, the first mapping in the list
is chosen. -/
theorem claim_c1_snmp_uplink_preference (hosts : List DiscoveredHost)
    (mt : List (String × List SwitchPortMapping)) (sips : List String)
    (h : DiscoveredHost) (ms : List SwitchPortMapping)
    (hh : h ∈ hosts) (hgw : h.is_gateway = false) (hmac : h.mac ≠ "")
    (hms : dget mt (lowerStr h.mac) = some ms) :
    ((∃ m ∈ ms, (uplinkPorts mt (switchMacs hosts sips)).contains
          (m.switch_ip, m.port_index) = false) →
      ∃ b ∈ ms, chooseBest (uplinkPorts mt (switchMacs hosts sips)) ms = some b ∧
        (uplinkPorts mt (switchMacs hosts sips)).contains
          (b.switch_ip, b.port_index) = false ∧
        ({ host_ip := h.ip, host_mac := h.mac, switch := b,
           source := "snmp" } : L2TopologyEntry)
          ∈ (build_l2_topology hosts mt sips).entries ∧
        (h.ip, b.switch_ip) ∈ (build_l2_topology hosts mt sips).tree) ∧
    ((∀ m ∈ ms, (uplinkPorts mt (switchMacs hosts sips)).contains
          (m.switch_ip, m.port_index) = true) →
      chooseBest (uplinkPorts mt (switchMacs hosts sips)) ms = ms.head?) := by
  constructor
  · intro hex
    obtain ⟨b, hbm, hbc, hbup⟩ := chooseBest_of_exists_nonuplink hex
    have hstep : hostStep mt (uplinkPorts mt (switchMacs hosts sips)) h
        = some ({ host_ip := h.ip, host_mac := h.mac, switch := b, source := "snmp" },
                (h.ip, b.switch_ip)) := by
      unfold hostStep
      rw [if_neg (by simp [hmac, hgw])]
      simp only [hms, hbc]
    refine ⟨b, hbm, hbc, hbup, ?_, ?_⟩
    · show _ ∈ (hosts.filterMap (hostStep mt (uplinkPorts mt (switchMacs hosts sips)))).map
          Prod.fst ++ (switchEdges mt (switchMacs hosts sips)).map Prod.fst
      apply List.mem_append_left
      exact List.mem_map.mpr ⟨_, List.mem_filterMap.mpr ⟨h, hh, hstep⟩, rfl⟩
    · show _ ∈ (hosts.filterMap (hostStep mt (uplinkPorts mt (switchMacs hosts sips)))).map
          Prod.snd ++ (switchEdges mt (switchMacs hosts sips)).map Prod.snd
      apply List.mem_append_left
      exact List.mem_map.mpr ⟨_, List.mem_filterMap.mpr ⟨h, hh, hstep⟩, rfl⟩
  · exact chooseBest_of_all_uplink

/-- The concrete switch-port mapping used in the C1 witness. -/
def c1wMap : SwitchPortMapping :=
  { switch_ip := "10.0.0.9", switch_name := "", port_index := 5, port_name := "U1/g5" }

/-- The concrete MAC table used in the C1 witness. -/
def c1wMt : List (String × List SwitchPortMapping) := [("aa:bb", [c1wMap])]

/-- The concrete host used in the C1 witness. -/
def c1wHost : DiscoveredHost := { ip := "10.0.0.5", mac := "AA:BB" }

/-- Witness for C1 at a concrete host directly attached to one switch. -/
theorem claim_c1_witness :
    ((∃ m ∈ [c1wMap],
        (uplinkPorts c1wMt (switchMacs [c1wHost] ["10.0.0.9"])).contains
          (m.switch_ip, m.port_index) = false) →
      ∃ b ∈ [c1wMap],
        chooseBest (uplinkPorts c1wMt (switchMacs [c1wHost] ["10.0.0.9"])) [c1wMap]
          = some b ∧
        (uplinkPorts c1wMt (switchMacs [c1wHost] ["10.0.0.9"])).contains
          (b.switch_ip, b.port_index) = false ∧
        ({ host_ip := "10.0.0.5", host_mac := "AA:BB", switch := b,
           source := "snmp" } : L2TopologyEntry)
          ∈ (build_l2_topology [c1wHost] c1wMt ["10.0.0.9"]).entries ∧
        ("10.0.0.5", b.switch_ip)
          ∈ (build_l2_topology [c1wHost] c1wMt ["10.0.0.9"]).tree) ∧
    ((∀ m ∈ [c1wMap],
        (uplinkPorts c1wMt (switchMacs [c1wHost] ["10.0.0.9"])).contains
          (m.switch_ip, m.port_index) = true) →
      chooseBest (uplinkPorts c1wMt (switchMacs [c1wHost] ["10.0.0.9"])) [c1wMap]
        = [c1wMap].head?) :=
  claim_c1_snmp_uplink_preference [c1wHost] c1wMt ["10.0.0.9"] c1wHost [c1wMap]
    (by decide) (by decide) (by decide) (by decide)

/-! ### The per-subnet L2 merge of `run_discovery` (scanner.py lines 691-810) -/

/-- The running per-subnet state of one `run_discovery` iteration: the host
list (mutable in Python — infrastructure marks), `l2_entries`,
`topology_tree` (as assignment history) and the `has_l2_data` flag. -/
structure SubnetState where
  hosts : List DiscoveredHost
  l2 : List L2TopologyEntry
  tree : List (String × String)
  hasL2 : Bool
deriving Repr

/-- scanner.py lines 700-716 — Source 1 (SNMP): build the L2 topology and
mark configured-switch hosts as infrastructure. -/
def snmpApply (mt : List (String × List SwitchPortMapping))
    (switch_ips : List String) (st : SubnetState) : SubnetState :=
  let res := build_l2_topology st.hosts mt switch_ips
  { hosts := st.hosts.map (fun h =>
      if h.ip ∈ switch_ips then { h with is_infrastructure := true } else h),
    l2 := res.entries,
    tree := res.tree,
    hasL2 := !res.entries.isEmpty }

/-- The SNMP source step, a no-op when no switches are configured. -/
def snmpStep (macTable : Option (List (String × List SwitchPortMapping)))
    (switch_ips : List String) (st : SubnetState) : SubnetState :=
  match macTable with
  | none => st
  | some mt => snmpApply mt switch_ips st

/-- The dict `{e.host_ip: e for e in entries}` rebuilt as a value list after
merging `newer` over `older` (scanner.py lines 733-736 and 776-779). -/
def mergeByHost (older newer : List L2TopologyEntry) : List L2TopologyEntry :=
  (ditems ((older ++ newer).map (fun e => (e.host_ip, e)))).map Prod.snd

/-- lldp.py lines 236-240 (`build_l2_from_lldp`): the tree assignments made
by the LLDP entries with a non-empty switch IP. -/
def lldpTreeAssignments (lldp_l2 : List L2TopologyEntry) : List (String × String) :=
  lldp_l2.filterMap (fun e =>
    if e.switch.switch_ip ≠ "" then some (e.host_ip, e.switch.switch_ip) else none)

/-- scanner.py lines 718-745 — Source 2 (LLDP): merge entries per host IP,
update the tree, and mark LLDP-resolved switch hosts as infrastructure.
`lldpEntries` is the result of `LldpDiscovery.load_and_parse` (`none` when no
LLDP directory is configured). -/
def lldpApply (L : List L2TopologyEntry) (st : SubnetState) : SubnetState :=
  if L.isEmpty then st
  else
    { hosts := st.hosts.map (fun h =>
        if L.any (fun e => e.switch.switch_ip ≠ "" ∧ e.switch.switch_ip = h.ip)
        then { h with is_infrastructure := true } else h),
      l2 := mergeByHost st.l2 L,
      tree := st.tree ++ lldpTreeAssignments L,
      hasL2 := true }

/-- The LLDP source step, a no-op when no LLDP directory is configured. -/
def lldpStep (lldpEntries : Option (List L2TopologyEntry)) (st : SubnetState) :
    SubnetState :=
  match lldpEntries with
  | none => st
  | some L => lldpApply L st

/-- scanner.py lines 749-768: the manual `L2TopologyEntry` list — one entry
per `(host_ip, switch_ip, port_name)` triple whose host IP is on this subnet
(MAC taken from the host). -/
def manualEntries (hosts : List DiscoveredHost)
    (manual : List (String × String × String)) : List L2TopologyEntry :=
  manual.filterMap (fun t =>
    match dget (hosts.map (fun h => (h.ip, h))) t.1 with
    | none => none
    | some host =>
      some { host_ip := t.1, host_mac := host.mac,
             switch := { switch_ip := t.2.1, switch_name := "", port_index := 0,
                         port_name := t.2.2 },
             source := "manual" })

/-- scanner.py line 769: the manual tree assignments. -/
def manualTreeAssignments (hosts : List DiscoveredHost)
    (manual : List (String × String × String)) : List (String × String) :=
  manual.filterMap (fun t =>
    if (dget (hosts.map (fun h => (h.ip, h))) t.1).isSome
    then some (t.1, t.2.1) else none)

/-- Mark the first host of the list with the given IP as infrastructure. -/
def markFirstInfra (ip : String) : List DiscoveredHost → List DiscoveredHost
  | [] => []
  | h :: hs =>
    if h.ip = ip then { h with is_infrastructure := true } :: hs
    else h :: markFirstInfra ip hs

/-- Mark the last host of the list with the given IP as infrastructure: the
Python code mutates `host_by_ip[sw_ip]`, which is the host object of the LAST
occurrence of that IP (dict overwrite). -/
def markLastInfra (ip : String) (hosts : List DiscoveredHost) :
    List DiscoveredHost :=
  (markFirstInfra ip hosts.reverse).reverse

/-- scanner.py lines 747-782 — Source 3 (Manual): filter triples to hosts on
this subnet, merge, update tree, and mark each referenced switch IP that is a
host as infrastructure. -/
def manualMarkedHosts (manual : List (String × String × String))
    (hosts : List DiscoveredHost) : List DiscoveredHost :=
  manual.foldl (fun hs t =>
    if (dget (hosts.map (fun h => (h.ip, h))) t.1).isSome ∧
       (dget (hosts.map (fun h => (h.ip, h))) t.2.1).isSome
    then markLastInfra t.2.1 hs else hs) hosts

def manualApply (manual : List (String × String × String)) (st : SubnetState) :
    SubnetState :=
  if (manualEntries st.hosts manual).isEmpty then
    { st with hosts := manualMarkedHosts manual st.hosts }
  else
    { hosts := manualMarkedHosts manual st.hosts,
      l2 := mergeByHost st.l2 (manualEntries st.hosts manual),
      tree := st.tree ++ manualTreeAssignments st.hosts manual,
      hasL2 := true }

/-- The manual source step, a no-op when no manual topology is configured. -/
def manualStep (manualTopology : Option (List (String × String × String)))
    (st : SubnetState) : SubnetState :=
  match manualTopology with
  | none => st
  | some manual => manualApply manual st

/-- scanner.py lines 784-788: hosts not mapped to any switch get the gateway
as parent (only when some structured source produced data). -/
def fillApply (gw : DiscoveredHost) (iface_ip : String) (st : SubnetState) :
    SubnetState :=
  if st.hasL2 then
    { st with tree := st.hosts.foldl (fun tr h =>
        if h.is_gateway = false ∧ dget tr h.ip = none ∧ h.ip ≠ iface_ip
        then tr ++ [(h.ip, gw.ip)] else tr) st.tree }
  else st

/-- The gateway-fill step, a no-op when the subnet has no gateway. -/
def fillStep (gateway : Option DiscoveredHost) (iface_ip : String)
    (st : SubnetState) : SubnetState :=
  match gateway with
  | none => st
  | some gw => fillApply gw iface_ip st

/-- scanner.py lines 790-797 — Source 4 (traceroute fallback), active only
when no structured source produced any data. -/
def traceApply (trace_local : Bool) (traces : List TraceroutePath)
    (gw : DiscoveredHost) (st : SubnetState) : SubnetState :=
  if st.hasL2 = false ∧ trace_local = true then
    let res := build_topology_tree st.hosts traces gw.ip
    { st with hosts := res.1, tree := res.2 }
  else st

/-- The traceroute-fallback step, a no-op when the subnet has no gateway. -/
def traceStep (trace_local : Bool) (traces : List TraceroutePath)
    (gateway : Option DiscoveredHost) (st : SubnetState) : SubnetState :=
  match gateway with
  | none => st
  | some gw => traceApply trace_local traces gw st

/-- The inputs of one per-subnet iteration of `run_discovery`. -/
structure SubnetInputs where
  hosts : List DiscoveredHost
  macTable : Option (List (String × List SwitchPortMapping)) := none
  switchIps : List String := []
  lldpEntries : Option (List L2TopologyEntry) := none
  manualTopology : Option (List (String × String × String)) := none
  traceLocal : Bool := false
  traces : List TraceroutePath := []
  ifaceIp : String := ""

/-- One per-subnet iteration of `run_discovery` (scanner.py lines 691-810):
gateway detection, then SNMP → LLDP → Manual in fixed precedence, then the
gateway fill, then the traceroute fallback. -/
def runSubnet (inp : SubnetInputs) : SubnetState :=
  let gateway := inp.hosts.find? (fun h => h.is_gateway)
  traceStep inp.traceLocal inp.traces gateway
    (fillStep gateway inp.ifaceIp
      (manualStep inp.manualTopology
        (lldpStep inp.lldpEntries
          (snmpStep inp.macTable inp.switchIps
            { hosts := inp.hosts, l2 := [], tree := [], hasL2 := false }))))

/-! ### Lookup lemmas for assignment-history dicts -/

theorem dget_eq_none_iff {α : Type} (l : List (String × α)) (x : String) :
    dget l x = none ↔ ∀ p ∈ l, p.1 ≠ x := by
  unfold dget
  rw [Option.map_eq_none', List.find?_eq_none]
  constructor
  · intro h p hp
    have := h p (List.mem_reverse.mpr hp)
    simpa using this
  · intro h p hp
    simpa using h p (List.mem_reverse.mp hp)

theorem dget_mem {α : Type} {l : List (String × α)} {x : String} {v : α}
    (h : dget l x = some v) : (x, v) ∈ l := by
  unfold dget at h
  obtain ⟨p, hf, hv⟩ := Option.map_eq_some'.mp h
  have hm := List.mem_reverse.mp (List.mem_of_find?_eq_some hf)
  have hk : p.1 = x := by
    have := List.find?_some hf
    simpa using this
  have : p = (x, v) := Prod.ext hk hv
  exact this ▸ hm

theorem memKeys_iff_isSome {α : Type} (l : List (String × α)) (x : String) :
    x ∈ l.map Prod.fst ↔ (dget l x).isSome := by
  constructor
  · intro hm
    obtain ⟨p, hp, hpx⟩ := List.mem_map.mp hm
    cases hd : dget l x
    · exact absurd hpx ((dget_eq_none_iff l x).mp hd p hp)
    · rfl
  · intro hs
    obtain ⟨v, hv⟩ := Option.isSome_iff_exists.mp hs
    exact List.mem_map.mpr ⟨(x, v), dget_mem hv, rfl⟩

theorem dget_singleton {α : Type} (p : String × α) (x : String) :
    dget [p] x = if p.1 == x then some p.2 else none := by
  unfold dget
  rcases hb : (p.1 == x) with _ | _ <;> simp [List.find?, hb]

theorem dget_cons {α : Type} (p : String × α) (l : List (String × α)) (x : String) :
    dget (p :: l) x = (dget l x <|> (if p.1 == x then some p.2 else none)) := by
  have h1 : dget ([p] ++ l) x = (dget l x <|> dget [p] x) := dget_append [p] l x
  simpa [dget_singleton] using h1

theorem mem_firstDedup (x : String) (l : List String) :
    x ∈ firstDedup l ↔ x ∈ l := by
  induction l with
  | nil => simp [firstDedup]
  | cons k ks ih =>
    unfold firstDedup
    simp only [List.mem_cons, List.mem_filter]
    constructor
    · rintro (rfl | ⟨hm, _⟩)
      · exact Or.inl rfl
      · exact Or.inr (ih.mp hm)
    · rintro (rfl | hm)
      · exact Or.inl rfl
      · by_cases hx : x = k
        · exact Or.inl hx
        · exact Or.inr ⟨ih.mpr hm, by simpa using hx⟩

theorem nodup_firstDedup (l : List String) : (firstDedup l).Nodup := by
  induction l with
  | nil => exact List.nodup_nil
  | cons k ks ih =>
    unfold firstDedup
    apply List.nodup_cons.mpr
    constructor
    · intro hc
      have := (List.mem_filter.mp hc).2
      simp at this
    · exact ih.filter _

theorem dget_keysFilterMap {α : Type} (keys : List String) (f : String → Option α)
    (x : String) (hnd : keys.Nodup) :
    dget (keys.filterMap (fun k => (f k).map (fun v => (k, v)))) x
      = if x ∈ keys then f x else none := by
  induction keys with
  | nil => simp [dget]
  | cons k ks ih =>
    rcases List.nodup_cons.mp hnd with ⟨hk, hnd'⟩
    rcases hfk : f k with _ | v
    · rw [List.filterMap_cons_none (by rw [hfk]; rfl)]
      rw [ih hnd']
      by_cases hx : x = k
      · subst hx
        rw [if_pos (List.mem_cons_self x ks), hfk, if_neg hk]
      · simp [List.mem_cons, hx]
    · rw [List.filterMap_cons_some (by rw [hfk]; rfl)]
      rw [dget_cons, ih hnd']
      by_cases hx : x = k
      · subst hx
        rw [if_neg hk, if_pos (List.mem_cons_self x ks), hfk]
        simp
      · have hne : ((k == x) : Bool) = false := by
          simp [Ne.symm hx]
        rw [hne]
        simp [List.mem_cons, hx]

theorem dget_ditems {α : Type} (d : List (String × α)) (x : String) :
    dget (ditems d) x = dget d x := by
  unfold ditems
  rw [dget_keysFilterMap _ _ _ (nodup_firstDedup _)]
  by_cases hx : x ∈ firstDedup (d.map Prod.fst)
  · rw [if_pos hx]
  · rw [if_neg hx]
    have hnk : x ∉ d.map Prod.fst := fun hc => hx ((mem_firstDedup _ _).mpr hc)
    cases hd : dget d x
    · rfl
    · exact absurd ((memKeys_iff_isSome d x).mpr (by rw [hd]; rfl)) hnk

/-- The latest entry for a host IP in an `l2_entries` list — the value the
Python dict comprehension `{e.host_ip: e for e in l2_entries}` assigns to
that key. -/
def entryFor (l : List L2TopologyEntry) (x : String) : Option L2TopologyEntry :=
  dget (l.map (fun e => (e.host_ip, e))) x

theorem entryFor_mergeByHost (A B : List L2TopologyEntry) (x : String) :
    entryFor (mergeByHost A B) x = (entryFor B x <|> entryFor A x) := by
  unfold entryFor mergeByHost
  have hprop : ∀ p ∈ ditems ((A ++ B).map (fun e => (e.host_ip, e))),
      p.2.host_ip = p.1 := by
    intro p hp
    unfold ditems at hp
    obtain ⟨k, _, hf⟩ := List.mem_filterMap.mp hp
    rcases hv : dget ((A ++ B).map (fun e => (e.host_ip, e))) k with _ | v
    · rw [hv] at hf
      cases hf
    · rw [hv] at hf
      obtain rfl := Option.some.inj hf
      have hmem := dget_mem hv
      obtain ⟨e, _, hpe⟩ := List.mem_map.mp hmem
      have : e.host_ip = k ∧ e = v := ⟨congrArg Prod.fst hpe, congrArg Prod.snd hpe⟩
      rw [← this.2, this.1]
  have hmap : ((ditems ((A ++ B).map (fun e => (e.host_ip, e)))).map Prod.snd).map
        (fun e => (e.host_ip, e))
      = ditems ((A ++ B).map (fun e => (e.host_ip, e))) := by
    rw [List.map_map]
    have := List.map_congr_left (l := ditems ((A ++ B).map (fun e => (e.host_ip, e))))
      (f := fun p => ((fun e => (e.host_ip, e)) ∘ Prod.snd) p) (g := id) ?_
    · rw [this, List.map_id]
    · intro p hp
      show (p.2.host_ip, p.2) = p
      rw [hprop p hp]
  rw [hmap, dget_ditems, List.map_append, dget_append]

theorem dget_map_value {α β : Type} (l : List (String × α)) (g : α → β) (x : String) :
    dget (l.map (fun p => (p.1, g p.2))) x = (dget l x).map g := by
  induction l with
  | nil => rfl
  | cons p ps ih =>
    rw [List.map_cons, dget_cons, dget_cons, ih]
    rcases hd : dget ps x with _ | v
    · rcases hb : (p.1 == x) with _ | _ <;> simp
    · simp

/-- A host-list transformation that preserves `ip` and `mac` (an
infrastructure marking) does not change the manual entries. -/
theorem manualEntries_map_mark (hosts : List DiscoveredHost)
    (mk : DiscoveredHost → DiscoveredHost) (hip : ∀ h, (mk h).ip = h.ip)
    (hmac : ∀ h, (mk h).mac = h.mac) (manual : List (String × String × String)) :
    manualEntries (hosts.map mk) manual = manualEntries hosts manual := by
  unfold manualEntries
  apply List.filterMap_congr
  intro t _
  have hmap : (hosts.map mk).map (fun h => (h.ip, h))
      = (hosts.map (fun h => (h.ip, h))).map (fun p => (p.1, mk p.2)) := by
    rw [List.map_map, List.map_map]
    apply List.map_congr_left
    intro h _
    show ((mk h).ip, mk h) = (h.ip, mk h)
    rw [hip]
  rw [hmap, dget_map_value]
  rcases hd : dget (hosts.map (fun h => (h.ip, h))) t.1 with _ | host
  · rw [hd]
    rfl
  · rw [hd]
    show some _ = some _
    rw [hmac]

/-- A host-list transformation that preserves `ip` does not change the
manual tree assignments. -/
theorem manualTreeAssignments_map_mark (hosts : List DiscoveredHost)
    (mk : DiscoveredHost → DiscoveredHost) (hip : ∀ h, (mk h).ip = h.ip)
    (manual : List (String × String × String)) :
    manualTreeAssignments (hosts.map mk) manual
      = manualTreeAssignments hosts manual := by
  unfold manualTreeAssignments
  apply List.filterMap_congr
  intro t _
  have hmap : (hosts.map mk).map (fun h => (h.ip, h))
      = (hosts.map (fun h => (h.ip, h))).map (fun p => (p.1, mk p.2)) := by
    rw [List.map_map, List.map_map]
    apply List.map_congr_left
    intro h _
    show ((mk h).ip, mk h) = (h.ip, mk h)
    rw [hip]
  rw [hmap, dget_map_value]
  rcases hd : dget (hosts.map (fun h => (h.ip, h))) t.1 with _ | host <;> rw [hd] <;> rfl

theorem manualEntries_nil_iff (hosts : List DiscoveredHost)
    (manual : List (String × String × String)) :
    manualEntries hosts manual = [] ↔ manualTreeAssignments hosts manual = [] := by
  unfold manualEntries manualTreeAssignments
  rw [List.filterMap_eq_nil_iff, List.filterMap_eq_nil_iff]
  constructor
  · intro h t ht
    have h2 := h t ht
    rcases hd : dget (hosts.map (fun h => (h.ip, h))) t.1 with _ | host
    · rw [if_neg (by rw [hd]; simp)]
    · rw [hd] at h2
      cases h2
  · intro h t ht
    have h2 := h t ht
    rcases hd : dget (hosts.map (fun h => (h.ip, h))) t.1 with _ | host
    · rw [hd]
    · rw [if_pos (by rw [hd]; rfl)] at h2
      cases h2

/-- The l2 view after the LLDP step: LLDP entries override per host IP. -/
theorem entryFor_lldpApply (L : List L2TopologyEntry) (st : SubnetState)
    (x : String) :
    entryFor (lldpApply L st).l2 x = (entryFor L x <|> entryFor st.l2 x) := by
  rcases L with _ | ⟨e, es⟩
  · rfl
  · exact entryFor_mergeByHost st.l2 (e :: es) x

/-- The tree after the LLDP step extends the previous tree with the LLDP
assignments. -/
theorem tree_lldpApply (L : List L2TopologyEntry) (st : SubnetState) :
    (lldpApply L st).tree = st.tree ++ lldpTreeAssignments L := by
  rcases L with _ | ⟨e, es⟩
  · exact (List.append_nil st.tree).symm
  · rfl

theorem hasL2_lldpApply (L : List L2TopologyEntry) (st : SubnetState)
    (h : st.hasL2 = true) : (lldpApply L st).hasL2 = true := by
  rcases L with _ | ⟨e, es⟩
  · exact h
  · rfl

/-- The l2 view after the manual step: manual entries override per host IP. -/
theorem entryFor_manualApply (M : List (String × String × String))
    (st : SubnetState) (x : String) :
    entryFor (manualApply M st).l2 x
      = (entryFor (manualEntries st.hosts M) x <|> entryFor st.l2 x) := by
  unfold manualApply
  rcases hm : manualEntries st.hosts M with _ | ⟨e, es⟩
  · rfl
  · rw [if_neg (by simp)]
    show entryFor (mergeByHost st.l2 (e :: es)) x = _
    rw [entryFor_mergeByHost]

theorem tree_manualApply (M : List (String × String × String)) (st : SubnetState) :
    (manualApply M st).tree = st.tree ++ manualTreeAssignments st.hosts M := by
  unfold manualApply
  rcases hm : manualEntries st.hosts M with _ | ⟨e, es⟩
  · show st.tree = st.tree ++ manualTreeAssignments st.hosts M
    rw [(manualEntries_nil_iff st.hosts M).mp hm, List.append_nil]
  · rw [if_neg (by simp)]

theorem hasL2_manualApply (M : List (String × String × String)) (st : SubnetState)
    (h : st.hasL2 = true) : (manualApply M st).hasL2 = true := by
  unfold manualApply
  rcases hm : manualEntries st.hosts M with _ | ⟨e, es⟩
  · exact h
  · rw [if_neg (by simp)]

theorem l2_fillApply (gw : DiscoveredHost) (iface : String) (st : SubnetState) :
    (fillApply gw iface st).l2 = st.l2 := by
  unfold fillApply
  by_cases hc : st.hasL2 = true
  · rw [if_pos hc]
  · rw [if_neg hc]

theorem hasL2_fillApply (gw : DiscoveredHost) (iface : String)
    (st : SubnetState) : (fillApply gw iface st).hasL2 = st.hasL2 := by
  unfold fillApply
  by_cases hc : st.hasL2 = true
  · rw [if_pos hc]
  · rw [if_neg hc]

theorem hosts_fillApply (gw : DiscoveredHost) (iface : String)
    (st : SubnetState) : (fillApply gw iface st).hosts = st.hosts := by
  unfold fillApply
  by_cases hc : st.hasL2 = true
  · rw [if_pos hc]
  · rw [if_neg hc]

theorem traceApply_of_hasL2 (tl : Bool) (traces : List TraceroutePath)
    (gw : DiscoveredHost) (st : SubnetState) (h : st.hasL2 = true) :
    traceApply tl traces gw st = st := by
  unfold traceApply
  rw [if_neg (by simp [h])]

theorem traceStep_of_hasL2 (tl : Bool) (traces : List TraceroutePath)
    (g : Option DiscoveredHost) (st : SubnetState) (h : st.hasL2 = true) :
    traceStep tl traces g st = st := by
  rcases g with _ | gw
  · rfl
  · exact traceApply_of_hasL2 tl traces gw st h

theorem dget_fillFold_preserve (iface gwip : String) (hosts : List DiscoveredHost) :
    ∀ (tr : List (String × String)) (x : String) (v : String), dget tr x = some v →
      dget (hosts.foldl (fun tr h =>
        if h.is_gateway = false ∧ dget tr h.ip = none ∧ h.ip ≠ iface
        then tr ++ [(h.ip, gwip)] else tr) tr) x = some v := by
  induction hosts with
  | nil => intro tr x v h; exact h
  | cons h0 hs ih =>
    intro tr x v hv
    rw [List.foldl_cons]
    by_cases hc : (h0.is_gateway = false ∧ dget tr h0.ip = none ∧ h0.ip ≠ iface)
    · rw [if_pos hc]
      apply ih
      have hne : (h0.ip == x) = false := by
        apply beq_eq_false_iff_ne.mpr
        intro he
        rw [he, hv] at hc
        cases hc.2.1
      rw [dget_append, dget_singleton, hne]
      simpa using hv
    · rw [if_neg hc]
      exact ih tr x v hv

/-- The fill step never removes or overrides an existing tree entry. -/
theorem dget_fillApply_preserve (gw : DiscoveredHost) (iface : String)
    (st : SubnetState) (x v : String) (h : dget st.tree x = some v) :
    dget (fillApply gw iface st).tree x = some v := by
  unfold fillApply
  by_cases hc : st.hasL2 = true
  · rw [if_pos hc]
    exact dget_fillFold_preserve iface gw.ip st.hosts st.tree x v h
  · rw [if_neg hc]
    exact h

theorem l2_fillStep (g : Option DiscoveredHost) (iface : String) (st : SubnetState) :
    (fillStep g iface st).l2 = st.l2 := by
  rcases g with _ | gw
  · rfl
  · exact l2_fillApply gw iface st

theorem hasL2_fillStep (g : Option DiscoveredHost) (iface : String)
    (st : SubnetState) : (fillStep g iface st).hasL2 = st.hasL2 := by
  rcases g with _ | gw
  · rfl
  · exact hasL2_fillApply gw iface st

theorem dget_fillStep_preserve (g : Option DiscoveredHost) (iface : String)
    (st : SubnetState) (x v : String) (h : dget st.tree x = some v) :
    dget (fillStep g iface st).tree x = some v := by
  rcases g with _ | gw
  · exact h
  · exact dget_fillApply_preserve gw iface st x v h

theorem hasL2_lldpApply_of_ne (L : List L2TopologyEntry) (st : SubnetState)
    (h : L ≠ []) : (lldpApply L st).hasL2 = true := by
  rcases L with _ | ⟨e, es⟩
  · exact absurd rfl h
  · rfl

theorem hasL2_manualApply_of_ne (M : List (String × String × String))
    (st : SubnetState) (h : manualEntries st.hosts M ≠ []) :
    (manualApply M st).hasL2 = true := by
  unfold manualApply
  rw [if_neg (by simpa using h)]

/-- A tree entry produced by `build_l2_topology` implies a nonempty entry
list (each tree assignment is paired with an entry). -/
theorem entries_ne_of_tree_some (hosts : List DiscoveredHost)
    (mt : List (String × List SwitchPortMapping)) (sips : List String)
    (x v : String) (h : dget (build_l2_topology hosts mt sips).tree x = some v) :
    (build_l2_topology hosts mt sips).entries ≠ [] := by
  intro hcon
  have h1 := List.append_eq_nil.mp hcon
  have hsteps : hosts.filterMap
      (hostStep mt (uplinkPorts mt (switchMacs hosts sips))) = [] :=
    List.map_eq_nil.mp h1.1
  have hedges : switchEdges mt (switchMacs hosts sips) = [] :=
    List.map_eq_nil.mp h1.2
  have htree : (build_l2_topology hosts mt sips).tree = [] := by
    show (hosts.filterMap (hostStep mt (uplinkPorts mt (switchMacs hosts sips)))).map
        Prod.snd ++ (switchEdges mt (switchMacs hosts sips)).map Prod.snd = []
    rw [hsteps, hedges]
    rfl
  rw [htree] at h
  cases h

theorem entryFor_ne_nil {l : List L2TopologyEntry} {x : String}
    {e : L2TopologyEntry} (h : entryFor l x = some e) : l ≠ [] := by
  intro hcon
  rw [hcon] at h
  cases h

/-- Claim C2: source-precedence of the per-subnet merge in `run_discovery`.
With SNMP, LLDP and Manual all configured, for every host IP x: if Manual
supplies x, the merged l2 entry and tree parent for x are Manual's; else if
LLDP supplies x they are LLDP's; else if SNMP supplies x they are SNMP's —
each later source overrides the earlier one only for the host IPs it actually
supplies, and entries for host IPs not supplied by any later source are left
unchanged. -/
theorem claim_c2_source_precedence (hosts : List DiscoveredHost)
    (mt : List (String × List SwitchPortMapping)) (sips : List String)
    (L : List L2TopologyEntry) (M : List (String × String × String))
    (tl : Bool) (traces : List TraceroutePath) (iface : String) :
    (∀ x e, entryFor (manualEntries hosts M) x = some e →
        entryFor (runSubnet
          ⟨hosts, some mt, sips, some L, some M, tl, traces, iface⟩).l2 x = some e) ∧
    (∀ x e, entryFor (manualEntries hosts M) x = none → entryFor L x = some e →
        entryFor (runSubnet
          ⟨hosts, some mt, sips, some L, some M, tl, traces, iface⟩).l2 x = some e) ∧
    (∀ x e, entryFor (manualEntries hosts M) x = none → entryFor L x = none →
        entryFor (build_l2_topology hosts mt sips).entries x = some e →
        entryFor (runSubnet
          ⟨hosts, some mt, sips, some L, some M, tl, traces, iface⟩).l2 x = some e) ∧
    (∀ x v, dget (manualTreeAssignments hosts M) x = some v →
        dget (runSubnet
          ⟨hosts, some mt, sips, some L, some M, tl, traces, iface⟩).tree x = some v) ∧
    (∀ x v, dget (manualTreeAssignments hosts M) x = none →
        dget (lldpTreeAssignments L) x = some v →
        dget (runSubnet
          ⟨hosts, some mt, sips, some L, some M, tl, traces, iface⟩).tree x = some v) ∧
    (∀ x v, dget (manualTreeAssignments hosts M) x = none →
        dget (lldpTreeAssignments L) x = none →
        dget (build_l2_topology hosts mt sips).tree x = some v →
        dget (runSubnet
          ⟨hosts, some mt, sips, some L, some M, tl, traces, iface⟩).tree x = some v) := by
  have hip1 : ∀ h : DiscoveredHost,
      ((if h.ip ∈ sips then { h with is_infrastructure := true } else h) :
        DiscoveredHost).ip = h.ip := by
    intro h
    by_cases hc : h.ip ∈ sips <;> simp [hc]
  have hmac1 : ∀ h : DiscoveredHost,
      ((if h.ip ∈ sips then { h with is_infrastructure := true } else h) :
        DiscoveredHost).mac = h.mac := by
    intro h
    by_cases hc : h.ip ∈ sips <;> simp [hc]
  set st1 := snmpApply mt sips { hosts := hosts, l2 := [], tree := [], hasL2 := false }
    with hst1
  set st2 := lldpApply L st1 with hst2
  set st3 := manualApply M st2 with hst3
  set gw? := hosts.find? (fun h => h.is_gateway) with hgw
  have hrun : runSubnet ⟨hosts, some mt, sips, some L, some M, tl, traces, iface⟩
      = traceStep tl traces gw? (fillStep gw? iface st3) := rfl
  have hst2hosts : manualEntries st2.hosts M = manualEntries hosts M ∧
      manualTreeAssignments st2.hosts M = manualTreeAssignments hosts M := by
    have hbase : manualEntries st1.hosts M = manualEntries hosts M ∧
        manualTreeAssignments st1.hosts M = manualTreeAssignments hosts M := by
      constructor
      · exact manualEntries_map_mark hosts _ hip1 hmac1 M
      · exact manualTreeAssignments_map_mark hosts _ hip1 M
    rcases hL : L with _ | ⟨e, es⟩
    · have hs21 : st2 = st1 := by
        rw [hst2, hL]
        rfl
      rw [hs21]
      exact hbase
    · have hip2 : ∀ h : DiscoveredHost,
          ((if (e :: es).any (fun e2 => e2.switch.switch_ip ≠ "" ∧
              e2.switch.switch_ip = h.ip)
            then { h with is_infrastructure := true } else h) : DiscoveredHost).ip
            = h.ip := by
        intro h
        by_cases hc : ((e :: es).any (fun e2 => decide (e2.switch.switch_ip ≠ "" ∧
            e2.switch.switch_ip = h.ip))) = true
        · rw [if_pos hc]
        · rw [if_neg hc]
      have hmac2 : ∀ h : DiscoveredHost,
          ((if (e :: es).any (fun e2 => e2.switch.switch_ip ≠ "" ∧
              e2.switch.switch_ip = h.ip)
            then { h with is_infrastructure := true } else h) : DiscoveredHost).mac
            = h.mac := by
        intro h
        by_cases hc : ((e :: es).any (fun e2 => decide (e2.switch.switch_ip ≠ "" ∧
            e2.switch.switch_ip = h.ip))) = true
        · rw [if_pos hc]
        · rw [if_neg hc]
      have hs2 : st2 = lldpApply (e :: es) st1 := by
        rw [hst2, hL]
      constructor
      · rw [hs2]
        show manualEntries (st1.hosts.map _) M = _
        rw [manualEntries_map_mark st1.hosts _ hip2 hmac2 M]
        exact hbase.1
      · rw [hs2]
        show manualTreeAssignments (st1.hosts.map _) M = _
        rw [manualTreeAssignments_map_mark st1.hosts _ hip2 M]
        exact hbase.2
  have ht3 : st3.tree = ((build_l2_topology hosts mt sips).tree
      ++ lldpTreeAssignments L) ++ manualTreeAssignments hosts M := by
    rw [hst3, tree_manualApply, hst2hosts.2, hst2, tree_lldpApply]
    rfl
  have he3 : ∀ x, entryFor st3.l2 x
      = (entryFor (manualEntries hosts M) x <|>
         (entryFor L x <|>
          entryFor (build_l2_topology hosts mt sips).entries x)) := by
    intro x
    rw [hst3, entryFor_manualApply, hst2hosts.1, hst2, entryFor_lldpApply]
    rfl
  have hfin_l2 : ∀ (hL2 : st3.hasL2 = true),
      (runSubnet ⟨hosts, some mt, sips, some L, some M, tl, traces, iface⟩).l2
        = st3.l2 := by
    intro hL2
    rw [hrun, traceStep_of_hasL2 _ _ _ _ (by rw [hasL2_fillStep]; exact hL2),
      l2_fillStep]
  have hfin_tree : ∀ (hL2 : st3.hasL2 = true) (x v : String),
      dget st3.tree x = some v →
      dget (runSubnet
        ⟨hosts, some mt, sips, some L, some M, tl, traces, iface⟩).tree x
        = some v := by
    intro hL2 x v hv
    rw [hrun, traceStep_of_hasL2 _ _ _ _ (by rw [hasL2_fillStep]; exact hL2)]
    exact dget_fillStep_preserve _ _ _ _ _ hv
  have hL2_of_manual : manualEntries hosts M ≠ [] → st3.hasL2 = true := by
    intro hne
    rw [hst3]
    exact hasL2_manualApply_of_ne M st2 (by rw [hst2hosts.1]; exact hne)
  have hL2_of_lldp : L ≠ [] → st3.hasL2 = true := by
    intro hne
    rw [hst3]
    apply hasL2_manualApply
    rw [hst2]
    exact hasL2_lldpApply_of_ne L st1 hne
  have hL2_of_snmp : (build_l2_topology hosts mt sips).entries ≠ [] →
      st3.hasL2 = true := by
    intro hne
    rw [hst3]
    apply hasL2_manualApply
    rw [hst2]
    apply hasL2_lldpApply
    show (!(build_l2_topology hosts mt sips).entries.isEmpty) = true
    rcases hc : (build_l2_topology hosts mt sips).entries with _ | _
    · exact absurd hc hne
    · rfl
  refine ⟨?_, ?_, ?_, ?_, ?_, ?_⟩
  · intro x e hm
    rw [hfin_l2 (hL2_of_manual (entryFor_ne_nil hm)), he3, hm]
    rfl
  · intro x e hm hl
    rw [hfin_l2 (hL2_of_lldp (entryFor_ne_nil hl)), he3, hm, hl]
    rfl
  · intro x e hm hl hs
    rw [hfin_l2 (hL2_of_snmp (entryFor_ne_nil hs)), he3, hm, hl, hs]
    rfl
  · intro x v hm
    have hne : manualEntries hosts M ≠ [] := by
      intro hcon
      rw [(manualEntries_nil_iff hosts M).mp hcon] at hm
      cases hm
    apply hfin_tree (hL2_of_manual hne) x v
    rw [ht3, dget_append, hm]
    rfl
  · intro x v hm hl
    have hne : L ≠ [] := by
      intro hcon
      rw [hcon] at hl
      cases hl
    apply hfin_tree (hL2_of_lldp hne) x v
    rw [ht3, dget_append, hm, dget_append, hl]
    rfl
  · intro x v hm hl hs
    apply hfin_tree (hL2_of_snmp (entries_ne_of_tree_some hosts mt sips x v hs)) x v
    rw [ht3, dget_append, hm, dget_append, hl, hs]
    rfl

/-- Concrete host list for the C2 witness: a gateway and one host. -/
def c2wHosts : List DiscoveredHost :=
  [{ ip := "10.0.0.1", is_gateway := true }, { ip := "10.0.0.5", mac := "aa" }]

/-- Concrete SNMP MAC table for the C2 witness: the host's MAC on switch
10.0.0.2. -/
def c2wMt : List (String × List SwitchPortMapping) :=
  [("aa", [{ switch_ip := "10.0.0.2", switch_name := "", port_index := 3,
             port_name := "" }])]

/-- Concrete LLDP entry for the C2 witness: the same host on switch
10.0.0.3. -/
def c2wLldp : L2TopologyEntry :=
  { host_ip := "10.0.0.5", host_mac := "aa",
    switch := { switch_ip := "10.0.0.3", switch_name := "sw3", port_index := 0,
                port_name := "g1" },
    source := "lldp" }

/-- Witness for C2: with an SNMP entry (switch 10.0.0.2) and a later LLDP
entry (switch 10.0.0.3) for host 10.0.0.5 and no manual entry, the merged
entry and tree parent are the LLDP ones. -/
theorem claim_c2_witness :
    entryFor (runSubnet
        ⟨c2wHosts, some c2wMt, ["10.0.0.2"], some [c2wLldp], some [], false, [],
          ""⟩).l2 "10.0.0.5" = some c2wLldp ∧
    dget (runSubnet
        ⟨c2wHosts, some c2wMt, ["10.0.0.2"], some [c2wLldp], some [], false, [],
          ""⟩).tree "10.0.0.5" = some "10.0.0.3" :=
  ⟨(claim_c2_source_precedence c2wHosts c2wMt ["10.0.0.2"] [c2wLldp] [] false []
      "").2.1 "10.0.0.5" c2wLldp (by decide) (by decide),
   (claim_c2_source_precedence c2wHosts c2wMt ["10.0.0.2"] [c2wLldp] [] false []
      "").2.2.2.2.1 "10.0.0.5" "10.0.0.3" (by decide) (by decide)⟩

/-! ### Claim C4: infrastructure marking of the gateway -/

/-- Claim C4 counterexample: when the gateway's IP is itself a configured
SNMP switch IP, `run_discovery` marks the gateway host as infrastructure
(scanner.py lines 708-710 have no gateway exclusion), contradicting the claim
that the gateway is never marked. -/
theorem claim_c4_counterexample :
    ∃ h ∈ (runSubnet
        ⟨[{ ip := "10.0.0.1", mac := "aa", is_gateway := true }], some [],
          ["10.0.0.1"], none, none, false, [], ""⟩).hosts,
      h.is_gateway = true ∧ h.is_infrastructure = true := by
  decide

theorem hosts_fillStep (g : Option DiscoveredHost) (iface : String)
    (st : SubnetState) : (fillStep g iface st).hosts = st.hosts := by
  rcases g with _ | gw
  · rfl
  · exact hosts_fillApply gw iface st

theorem snmpStep_gw_preserve (mt? : Option (List (String × List SwitchPortMapping)))
    (sips : List String) (st : SubnetState) (gip : String) (hs : gip ∉ sips)
    (hP : ∀ h ∈ st.hosts, h.ip = gip → h.is_infrastructure = false) :
    ∀ h ∈ (snmpStep mt? sips st).hosts, h.ip = gip → h.is_infrastructure = false := by
  rcases mt? with _ | mt
  · exact hP
  · intro h hm hipeq
    have hm' : h ∈ st.hosts.map (fun h =>
        if h.ip ∈ sips then { h with is_infrastructure := true } else h) := hm
    obtain ⟨h0, hm0, rfl⟩ := List.mem_map.mp hm'
    by_cases hc : h0.ip ∈ sips
    · rw [if_pos hc] at hipeq
      exact absurd (hipeq ▸ hc) hs
    · rw [if_neg hc] at hipeq ⊢
      exact hP h0 hm0 hipeq

theorem lldpStep_gw_preserve (L? : Option (List L2TopologyEntry))
    (st : SubnetState) (gip : String)
    (hL : ∀ L, L? = some L → ∀ e ∈ L, e.switch.switch_ip ≠ gip)
    (hP : ∀ h ∈ st.hosts, h.ip = gip → h.is_infrastructure = false) :
    ∀ h ∈ (lldpStep L? st).hosts, h.ip = gip → h.is_infrastructure = false := by
  rcases L? with _ | L
  · exact hP
  · rcases L with _ | ⟨e, es⟩
    · exact hP
    · intro h hm hipeq
      have hm' : h ∈ st.hosts.map (fun h =>
          if (e :: es).any (fun e2 => e2.switch.switch_ip ≠ "" ∧
            e2.switch.switch_ip = h.ip)
          then { h with is_infrastructure := true } else h) := hm
      obtain ⟨h0, hm0, rfl⟩ := List.mem_map.mp hm'
      by_cases hc : ((e :: es).any (fun e2 => decide (e2.switch.switch_ip ≠ "" ∧
          e2.switch.switch_ip = h0.ip))) = true
      · exfalso
        obtain ⟨e2, hme2, he2⟩ := List.any_eq_true.mp hc
        rw [decide_eq_true_eq] at he2
        have hip0 : h0.ip = gip := by
          rw [if_pos hc] at hipeq
          exact hipeq
        exact hL (e :: es) rfl e2 hme2 (he2.2.trans hip0)
      · rw [if_neg hc] at hipeq ⊢
        exact hP h0 hm0 hipeq

theorem markFirstInfra_cases (ip : String) (l : List DiscoveredHost) :
    ∀ h ∈ markFirstInfra ip l,
      h ∈ l ∨ ∃ h0 ∈ l, h = { h0 with is_infrastructure := true } ∧ h0.ip = ip := by
  induction l with
  | nil => intro h hm; cases hm
  | cons h0 hs ih =>
    intro h hm
    unfold markFirstInfra at hm
    by_cases hc : h0.ip = ip
    · rw [if_pos hc] at hm
      rcases List.mem_cons.mp hm with rfl | hm'
      · exact Or.inr ⟨h0, List.mem_cons_self h0 hs, rfl, hc⟩
      · exact Or.inl (List.mem_cons_of_mem h0 hm')
    · rw [if_neg hc] at hm
      rcases List.mem_cons.mp hm with rfl | hm'
      · exact Or.inl (List.mem_cons_self h hs)
      · rcases ih h hm' with hin | ⟨h1, hm1, heq, hip1⟩
        · exact Or.inl (List.mem_cons_of_mem h0 hin)
        · exact Or.inr ⟨h1, List.mem_cons_of_mem h0 hm1, heq, hip1⟩

theorem markLastInfra_gw_preserve (ip gip : String) (hne : ip ≠ gip)
    (l : List DiscoveredHost)
    (hP : ∀ h ∈ l, h.ip = gip → h.is_infrastructure = false) :
    ∀ h ∈ markLastInfra ip l, h.ip = gip → h.is_infrastructure = false := by
  intro h hm hipeq
  unfold markLastInfra at hm
  have hm' := List.mem_reverse.mp hm
  rcases markFirstInfra_cases ip l.reverse h hm' with hin | ⟨h0, hm0, heq, hip0⟩
  · exact hP h (List.mem_reverse.mp hin) hipeq
  · exfalso
    have : h.ip = h0.ip := by rw [heq]
    exact hne (hip0 ▸ (this ▸ hipeq))

theorem manualMarkedHosts_gw_preserve (M : List (String × String × String))
    (hosts0 : List DiscoveredHost) (gip : String)
    (hM : ∀ t ∈ M, t.2.1 ≠ gip) :
    ∀ (hs : List DiscoveredHost),
      (∀ h ∈ hs, h.ip = gip → h.is_infrastructure = false) →
      ∀ h ∈ M.foldl (fun hs t =>
          if (dget (hosts0.map (fun h => (h.ip, h))) t.1).isSome ∧
             (dget (hosts0.map (fun h => (h.ip, h))) t.2.1).isSome
          then markLastInfra t.2.1 hs else hs) hs,
        h.ip = gip → h.is_infrastructure = false := by
  induction M with
  | nil => intro hs hP; exact hP
  | cons t ts ih =>
    intro hs hP
    rw [List.foldl_cons]
    apply ih (fun t2 ht2 => hM t2 (List.mem_cons_of_mem t ht2))
    by_cases hc : ((dget (hosts0.map (fun h => (h.ip, h))) t.1).isSome ∧
        (dget (hosts0.map (fun h => (h.ip, h))) t.2.1).isSome)
    · rw [if_pos hc]
      exact markLastInfra_gw_preserve t.2.1 gip
        (hM t (List.mem_cons_self t ts)) hs hP
    · rw [if_neg hc]
      exact hP

theorem hosts_manualApply (M : List (String × String × String)) (st : SubnetState) :
    (manualApply M st).hosts = manualMarkedHosts M st.hosts := by
  unfold manualApply
  by_cases hc : (manualEntries st.hosts M).isEmpty = true
  · rw [if_pos hc]
  · rw [if_neg hc]

theorem manualStep_gw_preserve (M? : Option (List (String × String × String)))
    (st : SubnetState) (gip : String)
    (hM : ∀ M, M? = some M → ∀ t ∈ M, t.2.1 ≠ gip)
    (hP : ∀ h ∈ st.hosts, h.ip = gip → h.is_infrastructure = false) :
    ∀ h ∈ (manualStep M? st).hosts, h.ip = gip → h.is_infrastructure = false := by
  rcases M? with _ | M
  · exact hP
  · show ∀ h ∈ (manualApply M st).hosts, _
    rw [hosts_manualApply]
    exact manualMarkedHosts_gw_preserve M st.hosts gip (hM M rfl) st.hosts hP

theorem traceStep_gw_preserve (tl : Bool) (traces : List TraceroutePath)
    (g? : Option DiscoveredHost) (st : SubnetState) (gip : String)
    (hgw : ∀ gw, g? = some gw → gw.ip = gip)
    (hP : ∀ h ∈ st.hosts, h.ip = gip → h.is_infrastructure = false) :
    ∀ h ∈ (traceStep tl traces g? st).hosts, h.ip = gip → h.is_infrastructure = false := by
  rcases g? with _ | gw
  · exact hP
  · show ∀ h ∈ (traceApply tl traces gw st).hosts, _
    unfold traceApply
    by_cases hc : (st.hasL2 = false ∧ tl = true)
    · rw [if_pos hc]
      intro h hm hipeq
      have hm' : h ∈ st.hosts.map (fun h =>
          if h.ip ∈ traces.flatMap
              (pathInfraIps (st.hosts.map DiscoveredHost.ip) gw.ip)
          then { h with is_infrastructure := true } else h) := hm
      obtain ⟨h0, hm0, rfl⟩ := List.mem_map.mp hm'
      by_cases hcin : h0.ip ∈ traces.flatMap
          (pathInfraIps (st.hosts.map DiscoveredHost.ip) gw.ip)
      · exfalso
        obtain ⟨q, _, hq⟩ := List.mem_flatMap.mp hcin
        obtain ⟨hop, _, _, _, hnegw⟩ := (mem_pathInfraIps _ _ _ _).mp hq
        have hip0 : h0.ip = gip := by
          rw [if_pos hcin] at hipeq
          exact hipeq
        exact hnegw (hip0.trans (hgw gw rfl).symm)
      · rw [if_neg hcin] at hipeq ⊢
        exact hP h0 hm0 hipeq
    · rw [if_neg hc]
      exact hP

/-- Claim C4 (amended): the gateway host is never marked is_infrastructure by
the per-subnet discovery pipeline PROVIDED its IP is not referenced as a
switch: not a configured SNMP switch IP, not an LLDP-resolved switch IP, and
not a manual entry's switch IP (the traceroute marking skips the gateway
unconditionally).  Without that proviso the pipeline does mark the gateway
(see the counterexample). -/
theorem claim_c4_gateway_not_infrastructure (inp : SubnetInputs)
    (g0 : DiscoveredHost)
    (hg : inp.hosts.find? (fun h => h.is_gateway) = some g0)
    (hstart : ∀ h ∈ inp.hosts, h.ip = g0.ip → h.is_infrastructure = false)
    (hsips : g0.ip ∉ inp.switchIps)
    (hlldp : ∀ L, inp.lldpEntries = some L → ∀ e ∈ L, e.switch.switch_ip ≠ g0.ip)
    (hman : ∀ M, inp.manualTopology = some M → ∀ t ∈ M, t.2.1 ≠ g0.ip) :
    ∀ h ∈ (runSubnet inp).hosts, h.ip = g0.ip → h.is_infrastructure = false := by
  have h1 := snmpStep_gw_preserve inp.macTable inp.switchIps
    { hosts := inp.hosts, l2 := [], tree := [], hasL2 := false } g0.ip hsips hstart
  have h2 := lldpStep_gw_preserve inp.lldpEntries _ g0.ip hlldp h1
  have h3 := manualStep_gw_preserve inp.manualTopology _ g0.ip hman h2
  have h4 : ∀ h ∈ (fillStep (inp.hosts.find? (fun h => h.is_gateway)) inp.ifaceIp
      (manualStep inp.manualTopology
        (lldpStep inp.lldpEntries
          (snmpStep inp.macTable inp.switchIps
            { hosts := inp.hosts, l2 := [], tree := [], hasL2 := false })))).hosts,
      h.ip = g0.ip → h.is_infrastructure = false := by
    rw [hosts_fillStep]
    exact h3
  have h5 := traceStep_gw_preserve inp.traceLocal inp.traces
    (inp.hosts.find? (fun h => h.is_gateway)) _ g0.ip
    (fun gw hgweq => by
      rw [hg] at hgweq
      rw [Option.some.inj hgweq]) h4
  exact h5

/-- Witness for C4 (amended): a gateway plus one switch host, switch IP
distinct from the gateway IP — no host carrying the gateway IP is marked. -/
theorem claim_c4_witness :
    ((runSubnet
        ⟨[{ ip := "10.0.0.1", mac := "aa", is_gateway := true },
          { ip := "10.0.0.2", mac := "bb" }], some [("bb",
            [{ switch_ip := "10.0.0.2", switch_name := "", port_index := 1,
               port_name := "" }])], ["10.0.0.2"], none, none, false, [],
          ""⟩).hosts.all
      (fun h => !(h.ip == "10.0.0.1") || !h.is_infrastructure)) = true := by
  have hthm := claim_c4_gateway_not_infrastructure
    ⟨[{ ip := "10.0.0.1", mac := "aa", is_gateway := true },
      { ip := "10.0.0.2", mac := "bb" }], some [("bb",
        [{ switch_ip := "10.0.0.2", switch_name := "", port_index := 1,
           port_name := "" }])], ["10.0.0.2"], none, none, false, [], ""⟩
    { ip := "10.0.0.1", mac := "aa", is_gateway := true }
    (by decide) (by decide) (by decide)
    (by intro L hL; cases hL) (by intro M hM; cases hM)
  apply List.all_eq_true.mpr
  intro h hm
  by_cases hip : h.ip = "10.0.0.1"
  · have hflag := hthm h hm hip
    rw [hflag]
    simp
  · have : (h.ip == "10.0.0.1") = false := by
      simpa using hip
    rw [this]
    rfl

/-! ### Claim C3: the topology tree as a forest -/

/-- Claim C3 counterexample: two queried switches that learn each other's
MACs (the normal state of two connected switches) produce a two-node parent
CYCLE in the subnet's topology_tree: tree[10.0.0.2] = 10.0.0.3 and
tree[10.0.0.3] = 10.0.0.2, so following parent links loops forever,
contradicting the claimed forest invariant. -/
theorem claim_c3_counterexample :
    dget (runSubnet
        ⟨[{ ip := "10.0.0.1", is_gateway := true },
          { ip := "10.0.0.2", mac := "aa" }, { ip := "10.0.0.3", mac := "bb" }],
          some [("aa", [{ switch_ip := "10.0.0.3", switch_name := "",
                          port_index := 1, port_name := "" }]),
                ("bb", [{ switch_ip := "10.0.0.2", switch_name := "",
                          port_index := 2, port_name := "" }])],
          ["10.0.0.2", "10.0.0.3"], none, none, false, [], ""⟩).tree "10.0.0.2"
      = some "10.0.0.3" ∧
    dget (runSubnet
        ⟨[{ ip := "10.0.0.1", is_gateway := true },
          { ip := "10.0.0.2", mac := "aa" }, { ip := "10.0.0.3", mac := "bb" }],
          some [("aa", [{ switch_ip := "10.0.0.3", switch_name := "",
                          port_index := 1, port_name := "" }]),
                ("bb", [{ switch_ip := "10.0.0.2", switch_name := "",
                          port_index := 2, port_name := "" }])],
          ["10.0.0.2", "10.0.0.3"], none, none, false, [], ""⟩).tree "10.0.0.3"
      = some "10.0.0.2" := by
  decide

theorem traceApply_false (traces : List TraceroutePath) (gw : DiscoveredHost)
    (st : SubnetState) : traceApply false traces gw st = st := by
  unfold traceApply
  rw [if_neg]
  rintro ⟨_, hcon⟩
  cases hcon

theorem switchMacs_eq_nil (hosts : List DiscoveredHost) (sips : List String)
    (h1 : ∀ h ∈ hosts, h.ip ∉ sips) : switchMacs hosts sips = [] := by
  unfold switchMacs
  apply List.filterMap_eq_nil_iff.mpr
  intro h hm
  rw [if_neg]
  rintro ⟨hin, _⟩
  exact h1 h hm hin

theorem hostStep_inv {mt : List (String × List SwitchPortMapping)}
    {ups : List (String × Nat)} {host : DiscoveredHost}
    {pr : L2TopologyEntry × (String × String)}
    (h : hostStep mt ups host = some pr) :
    host.is_gateway = false ∧ pr.2.1 = host.ip ∧
      ∃ ms b, dget mt (lowerStr host.mac) = some ms ∧
        chooseBest ups ms = some b ∧ pr.2.2 = b.switch_ip := by
  unfold hostStep at h
  by_cases hc : (host.mac = "" ∨ host.is_gateway = true)
  · rw [if_pos hc] at h
    cases h
  · rw [if_neg hc] at h
    push_neg at hc
    rcases hms : dget mt (lowerStr host.mac) with _ | ms
    · rw [hms] at h
      cases h
    · rw [hms] at h
      have h' : (match chooseBest ups ms with
          | none => (none : Option (L2TopologyEntry × (String × String)))
          | some best =>
            some ({ host_ip := host.ip, host_mac := host.mac, switch := best,
                    source := "snmp" }, (host.ip, best.switch_ip))) = some pr := h
      rcases hcb : chooseBest ups ms with _ | b
      · rw [hcb] at h'
        cases h'
      · rw [hcb] at h'
        obtain rfl := (Option.some.inj h').symm
        refine ⟨?_, rfl, ms, b, ?_, hcb, rfl⟩
        · cases hgw : host.is_gateway
          · rfl
          · exact absurd hgw hc.2
        · rfl

theorem snmpTree_keys (hosts : List DiscoveredHost)
    (mt : List (String × List SwitchPortMapping)) (sips : List String)
    (h1 : ∀ h ∈ hosts, h.ip ∉ sips) :
    ∀ p ∈ (build_l2_topology hosts mt sips).tree,
      ∃ h ∈ hosts, p.1 = h.ip ∧ h.is_gateway = false := by
  intro p hp
  have hswm := switchMacs_eq_nil hosts sips h1
  have hp' : p ∈ (hosts.filterMap
        (hostStep mt (uplinkPorts mt (switchMacs hosts sips)))).map Prod.snd
      ++ (switchEdges mt (switchMacs hosts sips)).map Prod.snd := hp
  rw [hswm] at hp'
  have hedge : switchEdges mt ([] : List (String × String)) = [] := rfl
  rw [hedge] at hp'
  simp only [List.map_nil, List.append_nil] at hp'
  obtain ⟨pr, hpr, rfl⟩ := List.mem_map.mp hp'
  obtain ⟨h, hm, hstep⟩ := List.mem_filterMap.mp hpr
  obtain ⟨hgw, hip, _⟩ := hostStep_inv hstep
  exact ⟨h, hm, hip, hgw⟩

theorem snmpTree_values (hosts : List DiscoveredHost)
    (mt : List (String × List SwitchPortMapping)) (sips : List String)
    (h2 : ∀ p ∈ mt, ∀ m ∈ p.2, m.switch_ip ∈ sips) :
    ∀ p ∈ (build_l2_topology hosts mt sips).tree, p.2 ∈ sips := by
  intro p hp
  have hp' : p ∈ (hosts.filterMap
        (hostStep mt (uplinkPorts mt (switchMacs hosts sips)))).map Prod.snd
      ++ (switchEdges mt (switchMacs hosts sips)).map Prod.snd := hp
  rcases List.mem_append.mp hp' with hs | he
  · obtain ⟨pr, hpr, rfl⟩ := List.mem_map.mp hs
    obtain ⟨h, _, hstep⟩ := List.mem_filterMap.mp hpr
    obtain ⟨_, _, ms, b, hms, hcb, hval⟩ := hostStep_inv hstep
    rw [hval]
    exact h2 _ (dget_mem hms) b (chooseBest_mem hcb)
  · obtain ⟨pr, hpr, rfl⟩ := List.mem_map.mp he
    unfold switchEdges at hpr
    obtain ⟨sm, _, hin⟩ := List.mem_flatMap.mp hpr
    obtain ⟨m, hmm, hf⟩ := List.mem_filterMap.mp hin
    rcases hd : dget mt sm.2 with _ | ms
    · rw [hd] at hmm
      cases hmm
    · rw [hd] at hmm
      by_cases hc : m.switch_ip ≠ sm.1
      · rw [if_pos hc] at hf
        obtain rfl := (Option.some.inj hf).symm
        exact h2 _ (dget_mem hd) m hmm
      · rw [if_neg hc] at hf
        cases hf

theorem fillFold_extra (iface gwip : String) (hs : List DiscoveredHost) :
    ∀ (tr : List (String × String)),
      ∃ extra, hs.foldl (fun tr h =>
          if h.is_gateway = false ∧ dget tr h.ip = none ∧ h.ip ≠ iface
          then tr ++ [(h.ip, gwip)] else tr) tr = tr ++ extra ∧
        ∀ p ∈ extra, ∃ h ∈ hs, p = (h.ip, gwip) ∧ h.is_gateway = false := by
  induction hs with
  | nil =>
    intro tr
    exact ⟨[], (List.append_nil tr).symm, by intro p hp; cases hp⟩
  | cons h0 hrest ih =>
    intro tr
    rw [List.foldl_cons]
    by_cases hc : (h0.is_gateway = false ∧ dget tr h0.ip = none ∧ h0.ip ≠ iface)
    · rw [if_pos hc]
      obtain ⟨extra, heq, hprop⟩ := ih (tr ++ [(h0.ip, gwip)])
      refine ⟨(h0.ip, gwip) :: extra, by rw [heq, List.append_assoc]; rfl, ?_⟩
      intro p hp
      rcases List.mem_cons.mp hp with rfl | hp'
      · exact ⟨h0, List.mem_cons_self h0 hrest, rfl, hc.1⟩
      · obtain ⟨h, hm, hpe, hgw⟩ := hprop p hp'
        exact ⟨h, List.mem_cons_of_mem h0 hm, hpe, hgw⟩
    · rw [if_neg hc]
      obtain ⟨extra, heq, hprop⟩ := ih tr
      refine ⟨extra, heq, ?_⟩
      intro p hp
      obtain ⟨h, hm, hpe, hgw⟩ := hprop p hp
      exact ⟨h, List.mem_cons_of_mem h0 hm, hpe, hgw⟩

theorem dget_fillFold_covers (iface gwip : String) (hs : List DiscoveredHost) :
    ∀ (tr : List (String × String)) (h : DiscoveredHost), h ∈ hs →
      h.is_gateway = false → h.ip ≠ iface →
      (dget (hs.foldl (fun tr h =>
          if h.is_gateway = false ∧ dget tr h.ip = none ∧ h.ip ≠ iface
          then tr ++ [(h.ip, gwip)] else tr) tr) h.ip).isSome := by
  induction hs with
  | nil =>
    intro tr h hm
    cases hm
  | cons h0 hrest ih =>
    intro tr h hm hgw hif
    rw [List.foldl_cons]
    rcases List.mem_cons.mp hm with rfl | hm'
    · by_cases hc : (h.is_gateway = false ∧ dget tr h.ip = none ∧ h.ip ≠ iface)
      · rw [if_pos hc]
        have hsome : dget (tr ++ [(h.ip, gwip)]) h.ip = some gwip := by
          rw [dget_append, dget_singleton]
          simp
        rw [dget_fillFold_preserve iface gwip hrest _ _ _ hsome]
        rfl
      · rw [if_neg hc]
        have hns : dget tr h.ip ≠ none := by
          intro hnone
          exact hc ⟨hgw, hnone, hif⟩
        obtain ⟨v, hv⟩ := Option.ne_none_iff_exists'.mp hns
        rw [dget_fillFold_preserve iface gwip hrest tr _ _ hv]
        rfl
    · exact ih _ h hm' hgw hif

theorem snmpMark_ip (sips : List String) (h : DiscoveredHost) :
    ((if h.ip ∈ sips then { h with is_infrastructure := true } else h) :
      DiscoveredHost).ip = h.ip := by
  by_cases hc : h.ip ∈ sips
  · rw [if_pos hc]
  · rw [if_neg hc]

theorem snmpMark_gateway (sips : List String) (h : DiscoveredHost) :
    ((if h.ip ∈ sips then { h with is_infrastructure := true } else h) :
      DiscoveredHost).is_gateway = h.is_gateway := by
  by_cases hc : h.ip ∈ sips
  · rw [if_pos hc]
  · rw [if_neg hc]

/-- Claim C3 (amended): topology_tree maps each host IP to at most one parent
by construction.  With SNMP as the only structured source, if no discovered
host's IP is itself a queried-switch IP and every MAC-table mapping points to
a queried switch, the tree is a forest rooted at the subnet's gateway: every
parent is a queried-switch IP or the gateway IP, neither of which is a key of
the tree, so every parent chain terminates after one step and no cycle
exists; and (when SNMP produced any entry) every non-gateway host other than
the local interface gets exactly one parent.  In general — switches appearing
as discovered hosts — the code can produce parent cycles (see the
counterexample). -/
theorem claim_c3_topology_tree_forest (hosts : List DiscoveredHost)
    (mt : List (String × List SwitchPortMapping)) (sips : List String)
    (iface : String) (g0 : DiscoveredHost)
    (hg : hosts.find? (fun h => h.is_gateway) = some g0)
    (h1 : ∀ h ∈ hosts, h.ip ∉ sips)
    (h2 : ∀ p ∈ mt, ∀ m ∈ p.2, m.switch_ip ∈ sips)
    (h3 : ∀ h ∈ hosts, h.ip = g0.ip → h.is_gateway = true) :
    (∀ x y, dget (runSubnet
        ⟨hosts, some mt, sips, none, none, false, [], iface⟩).tree x = some y →
      dget (runSubnet
        ⟨hosts, some mt, sips, none, none, false, [], iface⟩).tree y = none) ∧
    ((build_l2_topology hosts mt sips).entries ≠ [] →
      ∀ h ∈ hosts, h.is_gateway = false → h.ip ≠ iface →
        (dget (runSubnet
          ⟨hosts, some mt, sips, none, none, false, [], iface⟩).tree h.ip).isSome) := by
  set st1 := snmpApply mt sips { hosts := hosts, l2 := [], tree := [], hasL2 := false }
    with hst1
  have hrun : (runSubnet ⟨hosts, some mt, sips, none, none, false, [], iface⟩).tree
      = (fillApply g0 iface st1).tree := by
    show (traceStep false [] (hosts.find? (fun h => h.is_gateway))
        (fillStep (hosts.find? (fun h => h.is_gateway)) iface st1)).tree = _
    rw [hg]
    show (traceApply false [] g0 (fillApply g0 iface st1)).tree = _
    rw [traceApply_false]
  have hTree : ∃ extra, (fillApply g0 iface st1).tree
      = (build_l2_topology hosts mt sips).tree ++ extra ∧
      ∀ p ∈ extra, ∃ h ∈ hosts, p.1 = h.ip ∧ h.is_gateway = false ∧ p.2 = g0.ip := by
    unfold fillApply
    by_cases hc : st1.hasL2 = true
    · rw [if_pos hc]
      obtain ⟨extra, heq, hprop⟩ := fillFold_extra iface g0.ip st1.hosts st1.tree
      refine ⟨extra, heq, ?_⟩
      intro p hp
      obtain ⟨h', hm', hpe, hgw'⟩ := hprop p hp
      have hm'' : h' ∈ hosts.map (fun h =>
          if h.ip ∈ sips then { h with is_infrastructure := true } else h) := hm'
      obtain ⟨h0, hm0, rfl⟩ := List.mem_map.mp hm''
      refine ⟨h0, hm0, ?_, ?_, ?_⟩
      · rw [hpe, snmpMark_ip]
      · rw [← snmpMark_gateway sips h0]
        exact hgw'
      · rw [hpe]
    · rw [if_neg hc]
      exact ⟨[], (List.append_nil _).symm, by intro p hp; cases hp⟩
  obtain ⟨extra, hte, hprop⟩ := hTree
  have hkeys : ∀ p ∈ (build_l2_topology hosts mt sips).tree ++ extra,
      ∃ h ∈ hosts, p.1 = h.ip ∧ h.is_gateway = false := by
    intro p hp
    rcases List.mem_append.mp hp with hp' | hp'
    · exact snmpTree_keys hosts mt sips h1 p hp'
    · obtain ⟨h, hm, hip, hgw, _⟩ := hprop p hp'
      exact ⟨h, hm, hip, hgw⟩
  constructor
  · intro x y hxy
    rw [hrun, hte] at hxy ⊢
    have hy : y ∈ sips ∨ y = g0.ip := by
      have hmem := dget_mem hxy
      rcases List.mem_append.mp hmem with hp' | hp'
      · exact Or.inl (snmpTree_values hosts mt sips h2 (x, y) hp')
      · obtain ⟨h, _, _, _, hval⟩ := hprop (x, y) hp'
        exact Or.inr hval
    apply (dget_eq_none_iff _ _).mpr
    intro p hp
    obtain ⟨h, hm, hpk, hgw⟩ := hkeys p hp
    rw [hpk]
    rcases hy with hy | hy
    · intro hcon
      exact h1 h hm (hcon ▸ hy)
    · intro hcon
      have := h3 h hm (hcon.trans hy)
      rw [this] at hgw
      cases hgw
  · intro hne h hm hgw hif
    have hL2 : st1.hasL2 = true := by
      show (!(build_l2_topology hosts mt sips).entries.isEmpty) = true
      rcases hce : (build_l2_topology hosts mt sips).entries with _ | _
      · exact absurd hce hne
      · rfl
    rw [hrun]
    show (dget (fillApply g0 iface st1).tree h.ip).isSome
    unfold fillApply
    rw [if_pos hL2]
    have hmem : (if h.ip ∈ sips then { h with is_infrastructure := true } else h)
        ∈ st1.hosts := by
      show _ ∈ hosts.map (fun h =>
        if h.ip ∈ sips then { h with is_infrastructure := true } else h)
      exact List.mem_map.mpr ⟨h, hm, rfl⟩
    have hcov := dget_fillFold_covers iface g0.ip st1.hosts st1.tree
      (if h.ip ∈ sips then { h with is_infrastructure := true } else h) hmem
      (by rw [snmpMark_gateway]; exact hgw)
      (by rw [snmpMark_ip]; exact hif)
    rw [snmpMark_ip] at hcov
    exact hcov

/-- Witness for C3 (amended): two plain hosts attached to one switch that is
not itself a discovered host — the tree is a one-level forest. -/
theorem claim_c3_witness :
    (∀ x y, dget (runSubnet
        ⟨[{ ip := "10.0.0.1", is_gateway := true }, { ip := "10.0.0.5", mac := "aa" }],
          some [("aa", [{ switch_ip := "10.0.0.9", switch_name := "",
                          port_index := 1, port_name := "" }])],
          ["10.0.0.9"], none, none, false, [], ""⟩).tree x = some y →
      dget (runSubnet
        ⟨[{ ip := "10.0.0.1", is_gateway := true }, { ip := "10.0.0.5", mac := "aa" }],
          some [("aa", [{ switch_ip := "10.0.0.9", switch_name := "",
                          port_index := 1, port_name := "" }])],
          ["10.0.0.9"], none, none, false, [], ""⟩).tree y = none) ∧
    ((build_l2_topology
        [{ ip := "10.0.0.1", is_gateway := true }, { ip := "10.0.0.5", mac := "aa" }]
        [("aa", [{ switch_ip := "10.0.0.9", switch_name := "", port_index := 1,
                   port_name := "" }])] ["10.0.0.9"]).entries ≠ [] →
      ∀ h ∈ [({ ip := "10.0.0.1", is_gateway := true } : DiscoveredHost),
             { ip := "10.0.0.5", mac := "aa" }],
        h.is_gateway = false → h.ip ≠ "" →
        (dget (runSubnet
          ⟨[{ ip := "10.0.0.1", is_gateway := true }, { ip := "10.0.0.5", mac := "aa" }],
            some [("aa", [{ switch_ip := "10.0.0.9", switch_name := "",
                            port_index := 1, port_name := "" }])],
            ["10.0.0.9"], none, none, false, [], ""⟩).tree h.ip).isSome) :=
  claim_c3_topology_tree_forest
    [{ ip := "10.0.0.1", is_gateway := true }, { ip := "10.0.0.5", mac := "aa" }]
    [("aa", [{ switch_ip := "10.0.0.9", switch_name := "", port_index := 1,
               port_name := "" }])]
    ["10.0.0.9"] "" { ip := "10.0.0.1", is_gateway := true }
    (by decide) (by decide) (by decide) (by decide)

end NetworkMgmt
